import Mathlib

/-!
Verification of the RISC-V64 assembler backend (cmd/internal/obj/riscv64/asm.go).

The Go source is shallowly embedded: pure Go functions become Lean functions on
`Int` (Go `int64` arithmetic coincides with unbounded-integer arithmetic except
where overflow can occur, which is modelled explicitly with `wrap64`), Go
bitwise operations on `int64` become the two's-complement operations `Int.land`,
`Int.lor` and the arithmetic shift `>>>` on unbounded integers, and Go `panic`
or `error` results become `Option`.
-/

namespace RiscvAsm

/-! ## Numeric codec (asm.go: signExtend, Split32BitImmediate, immFits) -/

/-- Wraps an unbounded integer into the signed 64-bit range, modelling the
two's-complement wraparound of Go `int64` arithmetic. -/
def wrap64 (x : Int) : Int := (x + 2 ^ 63) % 2 ^ 64 - 2 ^ 63

/-- Embedding of `signExtend` (asm.go): sign extends `val` starting at bit
`bit`.  The Go statements are, in order: `low := val & (1<<bit - 1)`,
`val >>= bit - 1`, `val <<= 63` (the only step that can overflow an `int64`,
hence `wrap64`), `val >>= 64 - bit`, `val |= low`. -/
def signExtend (val : Int) (bit : Nat) : Int :=
  let low := Int.land val (2 ^ bit - 1)
  let v1 := val >>> (bit - 1)
  let v2 := wrap64 (v1 * 2 ^ 63)
  let v3 := v2 >>> (64 - bit)
  Int.lor v3 low

/-- Embedding of `immFits` (asm.go): reports whether immediate value `x` fits
in `nbits` bits.  Go computes `min = -1 << nbits` and `max = 1<<nbits - 1`
after decrementing `nbits`; neither shift can overflow for the widths used. -/
def immFits (x : Int) (nbits : Nat) : Bool :=
  let n := nbits - 1
  decide (-(2 ^ n) ≤ x) && decide (x ≤ 2 ^ n - 1)

/-- Embedding of `Split32BitImmediate` (asm.go): splits a signed 32-bit
immediate into a signed 20-bit upper immediate and a signed 12-bit lower
immediate.  A Go `error` result is modelled as `none`. -/
def Split32BitImmediate (imm : Int) : Option (Int × Int) :=
  if !immFits imm 32 then none
  else if immFits imm 12 then some (imm, 0)
  else
    let high0 := imm >>> (12 : Nat)
    let high1 := if Int.land imm (2 ^ 11) ≠ 0 then high0 + 1 else high0
    let high := signExtend high1 20
    let low := signExtend imm 12
    some (low, high)

/-! ## Arithmetic facts about the bitwise operations used above -/

lemma two_pow_pos (n : Nat) : (0 : Int) < 2 ^ n := pow_pos (by norm_num) n

lemma natCast_two_pow_sub_one (n : Nat) : ((2 ^ n - 1 : Nat) : Int) = 2 ^ n - 1 := by
  have h1 : (1 : Nat) ≤ 2 ^ n := Nat.one_le_two_pow
  push_cast [h1]
  ring

/-- Bitwise difference with an all-ones mask is complement-within-the-mask. -/
lemma ldiff_two_pow_sub_one (k : Nat) : ∀ m : Nat, Nat.ldiff (2 ^ k - 1) m = 2 ^ k - 1 - m % 2 ^ k := by
  induction k with
  | zero =>
    intro m
    simp only [pow_zero]
    exact Nat.eq_of_testBit_eq fun i => by simp [Nat.testBit_ldiff]
  | succ k ih =>
    intro m
    have h1 : (1 : Nat) ≤ 2 ^ k := Nat.one_le_two_pow
    have h2 : (2 : Nat) ^ (k + 1) = 2 ^ k * 2 := pow_succ 2 k
    have hbit : Nat.bit (decide (m % 2 = 1)) (m >>> 1) = m :=
      Nat.bit_decide_mod_two_eq_one_shiftRight_one m
    have hmask : 2 ^ (k + 1) - 1 = Nat.bit true (2 ^ k - 1) := by
      rw [Nat.bit_val]
      simp only [Bool.toNat_true]
      omega
    have hs : m >>> 1 = m / 2 := Nat.shiftRight_one m
    have hmlt : m / 2 % 2 ^ k < 2 ^ k := Nat.mod_lt _ (by positivity)
    have hm2 : m % 2 < 2 := Nat.mod_lt _ (by norm_num)
    have key : m = 2 ^ k * 2 * (m / 2 / 2 ^ k) + (2 * (m / 2 % 2 ^ k) + m % 2) := by
      have e2 := Nat.div_add_mod (m / 2) (2 ^ k)
      calc m = 2 * (m / 2) + m % 2 := (Nat.div_add_mod m 2).symm
        _ = 2 * (2 ^ k * (m / 2 / 2 ^ k) + m / 2 % 2 ^ k) + m % 2 := by rw [e2]
        _ = 2 ^ k * 2 * (m / 2 / 2 ^ k) + (2 * (m / 2 % 2 ^ k) + m % 2) := by ring
    have hmod : m % 2 ^ (k + 1) = 2 * (m / 2 % 2 ^ k) + m % 2 := by
      rw [h2]
      conv_lhs => rw [key]
      rw [Nat.mul_add_mod]
      exact Nat.mod_eq_of_lt (by omega)
    conv_lhs => rw [hmask, ← hbit]
    rw [Nat.ldiff_bit, ih, hs]
    rw [hmod, Nat.bit_val]
    rcases Nat.mod_two_eq_zero_or_one m with hm | hm <;> rw [hm] <;> simp <;> omega

lemma land_ofNat (m n : Nat) :
    Int.land (Int.ofNat m) (Int.ofNat n) = Int.ofNat (m &&& n) := rfl

lemma land_negSucc_ofNat (m n : Nat) :
    Int.land (Int.negSucc m) (Int.ofNat n) = Int.ofNat (Nat.ldiff n m) := rfl

lemma lor_ofNat (m n : Nat) :
    Int.lor (Int.ofNat m) (Int.ofNat n) = Int.ofNat (m ||| n) := rfl

lemma lor_negSucc_ofNat (m n : Nat) :
    Int.lor (Int.negSucc m) (Int.ofNat n) = Int.negSucc (Nat.ldiff m n) := rfl

/-- Go `val & (1<<n - 1)` on a two's-complement integer extracts `val mod 2^n`. -/
lemma land_two_pow_sub_one (x : Int) (n : Nat) : Int.land x (2 ^ n - 1) = x % 2 ^ n := by
  cases x with
  | ofNat m =>
    conv_lhs => rw [← natCast_two_pow_sub_one]
    rw [show ((2 ^ n - 1 : Nat) : Int) = Int.ofNat (2 ^ n - 1) from rfl, land_ofNat]
    rw [Nat.and_pow_two_sub_one_eq_mod]
    rw [show (Int.ofNat (m % 2 ^ n) : Int) = ((m % 2 ^ n : Nat) : Int) from rfl]
    push_cast
    rfl
  | negSucc m =>
    conv_lhs => rw [← natCast_two_pow_sub_one]
    rw [show ((2 ^ n - 1 : Nat) : Int) = Int.ofNat (2 ^ n - 1) from rfl, land_negSucc_ofNat]
    rw [ldiff_two_pow_sub_one]
    rw [Int.negSucc_emod _ (by positivity)]
    rw [show (Int.ofNat (2 ^ n - 1 - m % 2 ^ n) : Int) = ((2 ^ n - 1 - m % 2 ^ n : Nat) : Int)
      from rfl]
    have hmlt : m % 2 ^ n < 2 ^ n := Nat.mod_lt _ (by positivity)
    have hcast : ((m % 2 ^ n : Nat) : Int) = (m : Int) % 2 ^ n := by
      push_cast
      rfl
    have hp : ((2 ^ n : Nat) : Int) = 2 ^ n := by push_cast; rfl
    omega

lemma ldiff_two_pow (k m : Nat) : Nat.ldiff (2 ^ k) m = if m.testBit k then 0 else 2 ^ k := by
  by_cases h : m.testBit k
  · rw [if_pos h]
    refine Nat.eq_of_testBit_eq fun i => ?_
    rw [Nat.testBit_ldiff, Nat.testBit_two_pow]
    rcases eq_or_ne k i with rfl | hne
    · simp [h]
    · simp [hne]
  · rw [if_neg h]
    refine Nat.eq_of_testBit_eq fun i => ?_
    rw [Nat.testBit_ldiff, Nat.testBit_two_pow]
    rcases eq_or_ne k i with rfl | hne
    · simp [h]
    · simp [hne]

lemma shiftRight_int (x : Int) (k : Nat) : x >>> k = x / 2 ^ k := by
  rw [Int.shiftRight_eq_div_pow]
  norm_num

/-- Go `val & (1<<k)` isolates the k-th two's-complement bit. -/
lemma land_two_pow (x : Int) (k : Nat) : Int.land x (2 ^ k) = ((x / 2 ^ k) % 2) * 2 ^ k := by
  have hcast : ((2 ^ k : Nat) : Int) = 2 ^ k := by push_cast; rfl
  cases x with
  | ofNat m =>
    conv_lhs => rw [← hcast]
    rw [show ((2 ^ k : Nat) : Int) = Int.ofNat (2 ^ k) from rfl, land_ofNat]
    rw [Nat.and_two_pow, Nat.testBit_to_div_mod]
    have hdm : (Int.ofNat m : Int) / 2 ^ k % 2 = ((m / 2 ^ k % 2 : Nat) : Int) := by
      rw [show (Int.ofNat m : Int) = ((m : Nat) : Int) from rfl]
      push_cast
      rfl
    rw [hdm]
    rcases Nat.mod_two_eq_zero_or_one (m / 2 ^ k) with hm | hm <;> rw [hm] <;>
      simp [Int.ofNat_eq_natCast]
  | negSucc m =>
    conv_lhs => rw [← hcast]
    rw [show ((2 ^ k : Nat) : Int) = Int.ofNat (2 ^ k) from rfl, land_negSucc_ofNat]
    rw [ldiff_two_pow]
    have hdiv : Int.negSucc m / 2 ^ k = Int.negSucc (m / 2 ^ k) := by
      rw [← shiftRight_int, Int.shiftRight_eq, Int.shiftRight, Nat.shiftRight_eq_div_pow]
    rw [hdiv, Int.negSucc_emod _ (by norm_num : (0:Int) < 2)]
    rw [Nat.testBit_to_div_mod]
    have hq : ((m / 2 ^ k : Nat) : Int) % 2 = ((m / 2 ^ k % 2 : Nat) : Int) := by
      push_cast
      rfl
    rw [hq]
    rcases Nat.mod_two_eq_zero_or_one (m / 2 ^ k) with hm | hm <;> rw [hm] <;>
      simp [Int.ofNat_eq_natCast, hcast]

lemma land_two_pow_ne_zero_iff (x : Int) (k : Nat) :
    Int.land x (2 ^ k) ≠ 0 ↔ (x / 2 ^ k) % 2 = 1 := by
  rw [land_two_pow]
  have h01 : (x / 2 ^ k) % 2 = 0 ∨ (x / 2 ^ k) % 2 = 1 := Int.emod_two_eq_zero_or_one _
  have hne : (2 : Int) ^ k ≠ 0 := (two_pow_pos k).ne'
  rcases h01 with h | h <;> simp [h, hne]

/-- The k-th two's-complement bit of `x`, read off from `x mod 2^(k+1)`. -/
lemma ediv_two_pow_emod_two (x : Int) (k : Nat) :
    (x / 2 ^ k) % 2 = (x % 2 ^ (k + 1)) / 2 ^ k := by
  have hpos : (0 : Int) < 2 ^ k := two_pow_pos k
  have hQR := Int.ediv_add_emod x (2 ^ (k + 1))
  set Q := x / 2 ^ (k + 1) with hQ
  set R := x % 2 ^ (k + 1) with hR
  have hRnn : 0 ≤ R := Int.emod_nonneg _ (by positivity)
  have hRlt : R < 2 ^ (k + 1) := Int.emod_lt_of_pos _ (by positivity)
  have hx : x = R + 2 ^ k * (2 * Q) := by
    rw [pow_succ] at hQR
    linarith
  rw [hx]
  rw [Int.add_mul_ediv_left _ _ hpos.ne']
  rw [Int.add_mul_emod_self_left]
  have hRdnn : 0 ≤ R / 2 ^ k := Int.ediv_nonneg hRnn hpos.le
  have hRdlt : R / 2 ^ k < 2 := by
    apply Int.ediv_lt_of_lt_mul hpos
    rw [pow_succ] at hRlt
    linarith
  rw [Int.emod_eq_of_lt hRdnn hRdlt]

lemma emod_half_split (x : Int) (k : Nat) :
    (x / 2 ^ k) % 2 = 1 ↔ 2 ^ k ≤ x % 2 ^ (k + 1) := by
  rw [ediv_two_pow_emod_two]
  have hpos : (0 : Int) < 2 ^ k := two_pow_pos k
  set R := x % 2 ^ (k + 1) with hR
  have hRnn : 0 ≤ R := Int.emod_nonneg _ (by positivity)
  have hRlt : R < 2 ^ (k + 1) := Int.emod_lt_of_pos _ (by positivity)
  rw [pow_succ] at hRlt
  constructor
  · intro h
    by_contra hc
    push_neg at hc
    rw [Int.ediv_eq_zero_of_lt hRnn hc] at h
    norm_num at h
  · intro h
    have h2 : R = 2 ^ k + (R - 2 ^ k) := by ring
    have h3 : R / 2 ^ k = 1 + (R - 2 ^ k) / 2 ^ k := by
      rw [h2]
      rw [show (2:Int) ^ k + (R - 2 ^ k) = (R - 2 ^ k) + 2 ^ k * 1 by ring]
      rw [Int.add_mul_ediv_left _ _ hpos.ne']
      ring
    have h4 : (R - 2 ^ k) / 2 ^ k = 0 := Int.ediv_eq_zero_of_lt (by linarith) (by linarith)
    rw [h3, h4]
    norm_num

lemma wrap64_mul_two_pow_63 (v : Int) :
    wrap64 (v * 2 ^ 63) = if v % 2 = 1 then -(2 ^ 63) else 0 := by
  have hdm := Int.ediv_add_emod v 2
  set q := v / 2 with hq
  set r := v % 2 with hr
  have hv : v = 2 * q + r := by linarith
  have h01 : r = 0 ∨ r = 1 := Int.emod_two_eq_zero_or_one v
  unfold wrap64
  have harr : v * 2 ^ 63 + 2 ^ 63 = (r + 1) * 2 ^ 63 + 2 ^ 64 * q := by
    rw [hv]; ring
  rw [harr, Int.add_mul_emod_self_left]
  rcases h01 with h | h
  · rw [h, if_neg (by norm_num)]
    rw [Int.emod_eq_of_lt (by norm_num) (by norm_num)]
    ring
  · rw [h, if_pos rfl]
    norm_num

lemma lor_zero_left (y : Int) (hy : 0 ≤ y) : Int.lor 0 y = y := by
  obtain ⟨n, rfl⟩ := Int.eq_ofNat_of_zero_le hy
  have h : Int.lor (Int.ofNat 0) (Int.ofNat n) = Int.ofNat (0 ||| n) := lor_ofNat 0 n
  simpa [Int.ofNat_eq_natCast] using h

lemma lor_neg_two_pow (b : Nat) (y : Int) (hb : 1 ≤ b) (h1 : 2 ^ (b - 1) ≤ y)
    (h2 : y < 2 ^ b) : Int.lor (-(2 ^ (b - 1))) y = y - 2 ^ b := by
  have hypos : 0 ≤ y := le_trans (two_pow_pos (b - 1)).le h1
  obtain ⟨n, rfl⟩ := Int.eq_ofNat_of_zero_le hypos
  have hneg : -((2 : Int) ^ (b - 1)) = Int.negSucc (2 ^ (b - 1) - 1) := by
    rw [Int.negSucc_eq, natCast_two_pow_sub_one]
    ring
  rw [hneg, show ((n : Nat) : Int) = Int.ofNat n from rfl, lor_negSucc_ofNat]
  rw [ldiff_two_pow_sub_one]
  have hble : 2 ^ (b - 1) ≤ n := by exact_mod_cast h1
  have hblt : n < 2 ^ b := by exact_mod_cast h2
  have hbb : b = (b - 1) + 1 := by omega
  have hpow : (2 : Nat) ^ b = 2 ^ (b - 1) * 2 := by
    conv_lhs => rw [hbb]
    exact pow_succ 2 (b - 1)
  have hmod : n % 2 ^ (b - 1) = n - 2 ^ (b - 1) := by
    have := Nat.mod_eq_sub_mod hble
    rw [this, Nat.mod_eq_of_lt (by omega)]
  rw [hmod, Int.negSucc_eq, show (Int.ofNat n : Int) = ((n : Nat) : Int) from rfl]
  have h1n : (1 : Nat) ≤ 2 ^ (b - 1) := Nat.one_le_two_pow
  have hcast2 : ((2 ^ b : Nat) : Int) = 2 ^ b := by push_cast; rfl
  have hcastb : ((2 ^ (b - 1) : Nat) : Int) = 2 ^ (b - 1) := by push_cast; rfl
  omega

/-- Characterization of `signExtend`: it replaces `x` by the two's-complement
reading of its low `b` bits. -/
lemma signExtend_eq (x : Int) (b : Nat) (hb1 : 1 ≤ b) (hb2 : b ≤ 63) :
    signExtend x b = if 2 ^ (b - 1) ≤ x % 2 ^ b then x % 2 ^ b - 2 ^ b else x % 2 ^ b := by
  have hk : b - 1 + 1 = b := by omega
  have hsplit := emod_half_split x (b - 1)
  rw [hk] at hsplit
  have hRnn : 0 ≤ x % 2 ^ b := Int.emod_nonneg _ (two_pow_pos b).ne'
  have hRlt : x % 2 ^ b < 2 ^ b := Int.emod_lt_of_pos _ (two_pow_pos b)
  simp only [signExtend]
  rw [land_two_pow_sub_one, shiftRight_int x (b - 1), wrap64_mul_two_pow_63]
  by_cases hc : 2 ^ (b - 1) ≤ x % 2 ^ b
  · rw [if_pos (hsplit.mpr hc), if_pos hc]
    have hdiv : (-(2 ^ 63) : Int) >>> (64 - b) = -(2 ^ (b - 1)) := by
      rw [shiftRight_int]
      have hsum : (64 - b) + (b - 1) = 63 := by omega
      have hprod : (2 : Int) ^ 63 = 2 ^ (64 - b) * 2 ^ (b - 1) := by
        rw [← pow_add, hsum]
      rw [hprod, show -((2:Int) ^ (64 - b) * 2 ^ (b - 1)) = 2 ^ (64 - b) * -(2 ^ (b - 1)) by ring]
      exact Int.mul_ediv_cancel_left _ (two_pow_pos (64 - b)).ne'
    rw [hdiv]
    exact lor_neg_two_pow b _ hb1 hc hRlt
  · rw [if_neg (fun h => hc (hsplit.mp h)), if_neg hc]
    rw [shiftRight_int, Int.zero_ediv]
    exact lor_zero_left _ hRnn

lemma signExtend_emod (x : Int) (b : Nat) (hb1 : 1 ≤ b) (hb2 : b ≤ 63) :
    signExtend x b % 2 ^ b = x % 2 ^ b := by
  rw [signExtend_eq x b hb1 hb2]
  by_cases hc : 2 ^ (b - 1) ≤ x % 2 ^ b
  · rw [if_pos hc, show x % 2 ^ b - 2 ^ b = x % 2 ^ b + 2 ^ b * (-1) by ring,
      Int.add_mul_emod_self_left, Int.emod_emod_of_dvd _ dvd_rfl]
  · rw [if_neg hc, Int.emod_emod_of_dvd _ dvd_rfl]

lemma signExtend_idem (x : Int) (b : Nat) (hb1 : 1 ≤ b) (hb2 : b ≤ 63) :
    signExtend (signExtend x b) b = signExtend x b := by
  rw [signExtend_eq (signExtend x b) b hb1 hb2, signExtend_emod x b hb1 hb2,
    signExtend_eq x b hb1 hb2]

lemma signExtend_of_fits (x : Int) (b : Nat) (hb1 : 1 ≤ b) (hb2 : b ≤ 63)
    (hlo : -(2 ^ (b - 1)) ≤ x) (hhi : x ≤ 2 ^ (b - 1) - 1) : signExtend x b = x := by
  rw [signExtend_eq x b hb1 hb2]
  have hbb : b = (b - 1) + 1 := by omega
  have hpow : (2 : Int) ^ b = 2 ^ (b - 1) * 2 := by
    conv_lhs => rw [hbb]
    exact pow_succ 2 (b - 1)
  by_cases hx : 0 ≤ x
  · have hmod : x % 2 ^ b = x := Int.emod_eq_of_lt hx (by omega)
    rw [hmod, if_neg (by omega)]
  · push_neg at hx
    have hmod : x % 2 ^ b = x + 2 ^ b := by
      have h1 : (x + 2 ^ b) % 2 ^ b = x % 2 ^ b := Int.add_mul_emod_self_left x (2 ^ b) 1 ▸ by
        rw [show x + 2 ^ b = x + 2 ^ b * 1 by ring, Int.add_mul_emod_self_left]
      rw [← h1, Int.emod_eq_of_lt (by omega) (by omega)]
    rw [hmod, if_pos (by omega)]
    ring

/-! ## Claims C10 and C1 -/

/-- C10: for every 64-bit integer `val` and bit position `b` with `1 ≤ b ≤ 63`,
`signExtend val b` equals the two's-complement interpretation of the low `b`
bits of `val`: it is `val mod 2^b` when bit `b-1` of `val` is clear and
`(val mod 2^b) - 2^b` when that bit is set. -/
theorem C10_signExtend_two_complement (val : Int) (b : Nat)
    (h0 : -(2 ^ 63) ≤ val) (h1 : val < 2 ^ 63) (hb1 : 1 ≤ b) (hb2 : b ≤ 63) :
    signExtend val b =
      if (val / 2 ^ (b - 1)) % 2 = 1 then val % 2 ^ b - 2 ^ b else val % 2 ^ b := by
  rw [signExtend_eq val b hb1 hb2]
  have hk : b - 1 + 1 = b := by omega
  have hs := emod_half_split val (b - 1)
  rw [hk] at hs
  by_cases hc : (val / 2 ^ (b - 1)) % 2 = 1
  · rw [if_pos hc, if_pos (hs.mp hc)]
  · rw [if_neg hc, if_neg (fun hle => hc (hs.mpr hle))]

theorem C10_signExtend_two_complement_witness :
    (-(2 ^ 63) ≤ (-5 : Int)) ∧ ((-5 : Int) < 2 ^ 63) ∧ (1 ≤ 3) ∧ (3 ≤ 63) ∧
    signExtend (-5) 3 =
      (if ((-5 : Int) / 2 ^ (3 - 1)) % 2 = 1 then (-5 : Int) % 2 ^ 3 - 2 ^ 3
       else (-5 : Int) % 2 ^ 3) :=
  ⟨by decide, by decide, by decide, by decide,
    C10_signExtend_two_complement (-5) 3 (by decide) (by decide) (by decide) (by decide)⟩

/-- C1 counterexample: `v = 2^31 - 1` fits in 32 signed bits and
`Split32BitImmediate v = (-1, -524288)`, but
`(high << 12) + signExtend(low, 12) = -(2^31) - 1 ≠ v`: the borrow increment
overflows the 20-bit high part at the top of the 32-bit range, so the claimed
identity fails in exact integer arithmetic (it only holds modulo `2^32`). -/
theorem C1_counterexample :
    immFits 2147483647 32 = true ∧
    Split32BitImmediate 2147483647 = some (-1, -524288) ∧
    (-524288 : Int) * 2 ^ 12 + signExtend (-1) 12 ≠ 2147483647 := by
  have h32 : immFits 2147483647 32 = true := by decide
  have h12 : immFits 2147483647 12 = false := by decide
  have hse1 : signExtend (-1) 12 = -1 := by
    rw [signExtend_eq _ 12 (by norm_num) (by norm_num)]
    decide
  refine ⟨h32, ?_, ?_⟩
  · have hl : Int.land 2147483647 (2 ^ 11) = 2048 := by
      rw [land_two_pow]
      decide
    have hsr : (2147483647 : Int) >>> (12 : Nat) = 524287 := by
      rw [shiftRight_int]
      decide
    simp only [Split32BitImmediate, h32, h12, Bool.not_true, Bool.false_eq_true, if_false, hl,
      hsr]
    norm_num
    rw [signExtend_eq _ 20 (by norm_num) (by norm_num),
      signExtend_eq _ 12 (by norm_num) (by norm_num)]
    decide
  · rw [hse1]
    decide

/-- C1 (amended): for every signed integer `v` fitting in 32 signed bits,
`Split32BitImmediate v` returns `(low, high)` with no error such that
`(high << 12) + signExtend(low, 12)` is congruent to `v` modulo `2^32`
(equality as 32-bit values; exact integer equality fails only where the borrow
increment overflows the 20-bit high part, see the counterexample), and if `v`
additionally fits in 12 signed bits then `high = 0` and `low = v`. -/
theorem C1_split32_roundtrip (v : Int) (h : immFits v 32 = true) :
    ∃ low high, Split32BitImmediate v = some (low, high) ∧
      (high * 2 ^ 12 + signExtend low 12) % 2 ^ 32 = v % 2 ^ 32 ∧
      (immFits v 12 = true → high = 0 ∧ low = v) := by
  by_cases h12 : immFits v 12 = true
  · refine ⟨v, 0, ?_, ?_, fun _ => ⟨rfl, rfl⟩⟩
    · simp only [Split32BitImmediate, h, h12, Bool.not_true, Bool.false_eq_true, if_false,
        if_true]
    · have hb : signExtend v 12 = v := by
        have hbounds : -(2 ^ 11) ≤ v ∧ v ≤ 2 ^ 11 - 1 := by
          simp only [immFits, Bool.and_eq_true, decide_eq_true_eq] at h12
          exact_mod_cast h12
        exact signExtend_of_fits v 12 (by norm_num) (by norm_num) hbounds.1 hbounds.2
      rw [hb]
      norm_num
  · have hne : immFits v 12 = false := by
      cases hb : immFits v 12
      · rfl
      · exact absurd hb h12
    have hiff : Int.land v (2 ^ 11) ≠ 0 ↔ 2 ^ 11 ≤ v % 2 ^ 12 := by
      rw [land_two_pow_ne_zero_iff]
      simpa using emod_half_split v 11
    have hsp : Split32BitImmediate v =
        some (signExtend v 12,
          signExtend (v / 2 ^ 12 + (if 2 ^ 11 ≤ v % 2 ^ 12 then 1 else 0)) 20) := by
      simp only [Split32BitImmediate, h, hne, Bool.not_true, Bool.false_eq_true, if_false]
      rw [shiftRight_int v 12]
      by_cases hbit : 2 ^ 11 ≤ v % 2 ^ 12
      · rw [if_pos (hiff.mpr hbit), if_pos hbit]
      · rw [if_neg (fun hc => hbit (hiff.mp hc)), if_neg hbit, add_zero]
    set b : Int := if 2 ^ 11 ≤ v % 2 ^ 12 then 1 else 0 with hbdef
    set h1 : Int := v / 2 ^ 12 + b with h1def
    refine ⟨signExtend v 12, signExtend h1 20, hsp, ?_, fun hc => absurd hc (by rw [hne]; simp)⟩
    have hidem : signExtend (signExtend v 12) 12 = signExtend v 12 :=
      signExtend_idem v 12 (by norm_num) (by norm_num)
    have hkey : h1 * 2 ^ 12 + signExtend v 12 = v := by
      rw [signExtend_eq v 12 (by norm_num) (by norm_num)]
      have hdm := Int.ediv_add_emod v (2 ^ 12)
      have h1211 : (2 : Int) ^ 12 = 2 ^ 11 * 2 := by norm_num
      by_cases hbit : 2 ^ 11 ≤ v % 2 ^ 12
      · rw [h1def, hbdef, if_pos hbit,
          if_pos (show (2 : Int) ^ (12 - 1) ≤ v % 2 ^ 12 by exact_mod_cast hbit)]
        linarith
      · rw [h1def, hbdef, if_neg hbit,
          if_neg (show ¬(2 : Int) ^ (12 - 1) ≤ v % 2 ^ 12 by exact_mod_cast hbit)]
        linarith
    have hmod : signExtend h1 20 % 2 ^ 20 = h1 % 2 ^ 20 :=
      signExtend_emod h1 20 (by norm_num) (by norm_num)
    have h0 : (signExtend h1 20 - h1) % 2 ^ 20 = 0 := by
      rw [Int.sub_emod, hmod, sub_self, Int.zero_emod]
    obtain ⟨t, ht⟩ := Int.dvd_of_emod_eq_zero h0
    have hhigh : signExtend h1 20 = h1 + 2 ^ 20 * t := by linarith
    have hfin : signExtend h1 20 * 2 ^ 12 + signExtend (signExtend v 12) 12 = v + 2 ^ 32 * t := by
      rw [hidem, hhigh]
      have hpw : ((2 : Int) ^ 20 * t) * 2 ^ 12 = 2 ^ 32 * t := by ring
      calc (h1 + 2 ^ 20 * t) * 2 ^ 12 + signExtend v 12
          = (h1 * 2 ^ 12 + signExtend v 12) + (2 ^ 20 * t) * 2 ^ 12 := by ring
        _ = v + 2 ^ 32 * t := by rw [hkey, hpw]
    rw [hfin, Int.add_mul_emod_self_left]

theorem C1_split32_roundtrip_witness :
    immFits 5000 32 = true ∧
    (∃ low high, Split32BitImmediate 5000 = some (low, high) ∧
      (high * 2 ^ 12 + signExtend low 12) % 2 ^ 32 = (5000 : Int) % 2 ^ 32 ∧
      (immFits 5000 12 = true → high = 0 ∧ low = 5000)) :=
  ⟨by decide, C1_split32_roundtrip 5000 (by decide)⟩

/-! ## Data model: operands and instruction descriptors (obj.Addr, obj.Prog)

Registers are represented by their integer numbers.  The register constants are
declared in a sibling file of the same package (not under src/); only their
identities and the integer/float ranges matter here, so the standard RISC-V
numbering is used: x0..x31 are 0..31 and f0..f31 are 32..63. -/

def REG_X0 : Int := 0
def REG_X31 : Int := 31
def REG_ZERO : Int := 0
def REG_RA : Int := 1
def REG_SP : Int := 2
def REG_X2 : Int := 2
def REG_T0 : Int := 5
def REG_A0 : Int := 10
def REG_A1 : Int := 11
def REG_A2 : Int := 12
def REG_A3 : Int := 13
def REGG : Int := 27
def REG_TMP : Int := 31
def REG_F0 : Int := 32
def REG_F31 : Int := 63

/-- Operand type tag (obj.TYPE_*). -/
inductive AType where
  | TYPE_NONE
  | TYPE_REG
  | TYPE_CONST
  | TYPE_MEM
  | TYPE_BRANCH
  | TYPE_ADDR
deriving DecidableEq, Repr

/-- Operand addressing-class tag (obj.NAME_*). -/
inductive AName where
  | NAME_NONE
  | NAME_AUTO
  | NAME_PARAM
  | NAME_EXTERN
  | NAME_STATIC
deriving DecidableEq, Repr

/-- Opcodes (obj.A* and riscv64 A*), restricted to the ones the verified
passes mention. -/
inductive As where
  | AXXX
  | ATEXT
  | AFUNCDATA
  | APCDATA
  | ANOP
  | ACALL
  | AJMP
  | ARET
  | AMOV
  | AJAL
  | AJALR
  | ABEQ
  | ABNE
  | ABLT
  | ABGE
  | ABLTU
  | ABGEU
  | AADD
  | ASUB
  | AADDI
  | AADDIW
  | ALUI
  | AAUIPC
  | ALD
  | ASD
deriving DecidableEq, Repr

/-- Embedding of obj.Addr restricted to the fields the riscv64 backend reads:
type, register, offset, name and symbol (symbols by identifier). -/
structure Addr where
  typ : AType := .TYPE_NONE
  reg : Int := 0
  offset : Int := 0
  name : AName := .NAME_NONE
  sym : Option Nat := none
deriving DecidableEq, Repr

/-- Embedding of obj.Prog restricted to the fields the riscv64 backend reads.
`pId` identifies the descriptor so that the `Pcond` pointer can be modelled as
an identifier reference; `markI`/`markS` model the `NEED_PCREL_ITYPE_RELOC` and
`NEED_PCREL_STYPE_RELOC` bits of `Mark`. -/
structure Prog where
  pId : Nat := 0
  pAs : As := .AXXX
  pFrom : Addr := {}
  pReg : Int := 0
  pFrom3 : Addr := {}
  pTo : Addr := {}
  pPcond : Option Nat := none
  pPc : Int := 0
  pSpadj : Int := 0
  markI : Bool := false
  markS : Bool := false
deriving DecidableEq, Repr

/-! ## stackOffset (asm.go lines 66-75) -/

/-- Embedding of `stackOffset` (asm.go): updates an Addr offset based on the
current stack size.  NAME_AUTO offsets are adjusted to the top of the AUTOs,
NAME_PARAM offsets to the bottom of the PARAMs (one 8-byte RA slot higher). -/
def stackOffset (a : Addr) (stacksize : Int) : Addr :=
  match a.name with
  | .NAME_AUTO => { a with offset := a.offset + stacksize }
  | .NAME_PARAM => { a with offset := a.offset + stacksize + 8 }
  | _ => a

/-- C7: offset rebasing adds exactly the frame size to every NAME_AUTO operand
offset, exactly the frame size plus 8 to every NAME_PARAM operand offset, and
leaves every other field of every operand, and operands with any other name,
unchanged. -/
theorem C7_stackOffset_rebase (a : Addr) (s : Int) :
    stackOffset a s =
      { a with offset := a.offset +
          (if a.name = .NAME_AUTO then s
           else if a.name = .NAME_PARAM then s + 8 else 0) } := by
  rcases a with ⟨typ, reg, offset, name, sym⟩
  cases name <;> simp [stackOffset] <;> ring

/-! ## InvertBranch (asm.go lines 358-375) -/

/-- Embedding of `InvertBranch` (asm.go): inverts the condition of a
conditional branch; the Go `panic` on any other opcode is modelled as `none`. -/
def InvertBranch : As → Option As
  | .ABEQ => some .ABNE
  | .ABNE => some .ABEQ
  | .ABLT => some .ABGE
  | .ABGE => some .ABLT
  | .ABLTU => some .ABGEU
  | .ABGEU => some .ABLTU
  | _ => none

/-- C8: InvertBranch is an involution on the six invertible conditions,
pairing equal with not-equal and less-than with greater-or-equal (also in the
unsigned forms), and any other opcode is a fatal internal error (modelled as
`none`). -/
theorem C8_invertBranch_involution :
    (∀ i : As,
      (i = .ABEQ ∨ i = .ABNE ∨ i = .ABLT ∨ i = .ABGE ∨ i = .ABLTU ∨ i = .ABGEU) →
        (InvertBranch i).bind InvertBranch = some i) ∧
    InvertBranch .ABEQ = some .ABNE ∧ InvertBranch .ABNE = some .ABEQ ∧
    InvertBranch .ABLT = some .ABGE ∧ InvertBranch .ABGE = some .ABLT ∧
    InvertBranch .ABLTU = some .ABGEU ∧ InvertBranch .ABGEU = some .ABLTU ∧
    (∀ i : As,
      ¬(i = .ABEQ ∨ i = .ABNE ∨ i = .ABLT ∨ i = .ABGE ∨ i = .ABLTU ∨ i = .ABGEU) →
        InvertBranch i = none) := by
  refine ⟨?_, rfl, rfl, rfl, rfl, rfl, rfl, ?_⟩
  · rintro i (rfl | rfl | rfl | rfl | rfl | rfl) <;> rfl
  · intro i h
    cases i <;> first | rfl | (exfalso; apply h; tauto)

theorem C8_invertBranch_involution_witness :
    (InvertBranch .ABEQ).bind InvertBranch = some .ABEQ ∧ InvertBranch .AADD = none :=
  ⟨C8_invertBranch_involution.1 .ABEQ (Or.inl rfl),
   C8_invertBranch_involution.2.2.2.2.2.2.2 .AADD (by simp)⟩

/-! ## Validators (asm.go: wantReg, wantImm, wantEvenJumpOffset, validateSB,
validateUJ)

Diagnostics issued through `ctxt.Diag` are collected in a list; an empty list
means validation passed silently. -/

/-- Embedding of `wantReg` (asm.go): checks that an Addr contains a register
in the given range. -/
def wantReg (a : Addr) (mn mx : Int) : List String :=
  if a.typ ≠ .TYPE_REG then ["expected register"]
  else if a.reg < mn ∨ mx < a.reg then ["register out of range"]
  else []

/-- Embedding of `wantIntReg` (asm.go): checks that an Addr contains an
integer register. -/
def wantIntReg (a : Addr) : List String := wantReg a REG_X0 REG_X31

/-- Embedding of `wantImm` (asm.go): checks that an Addr contains an immediate
fitting the given number of bits. -/
def wantImm (a : Addr) (nbits : Nat) : List String :=
  if a.typ ≠ .TYPE_CONST then ["expected immediate"]
  else if !immFits a.offset nbits then ["immediate too large"]
  else []

/-- Embedding of `wantEvenJumpOffset` (asm.go): the Go source tests
`p.To.Offset%1 != 0`, a remainder modulo one. -/
def wantEvenJumpOffset (p : Prog) : List String :=
  if p.pTo.offset % 1 ≠ 0 then ["jump offset must be even"]
  else []

/-- Embedding of `validateSB` (asm.go): validates a branch instruction
(13-bit even-aligned offset, integer source register). -/
def validateSB (p : Prog) : List String :=
  wantEvenJumpOffset p ++ wantImm p.pTo 13 ++ wantIntReg p.pFrom

/-- Embedding of `validateUJ` (asm.go): validates a jump instruction
(21-bit even-aligned offset, integer link register). -/
def validateUJ (p : Prog) : List String :=
  wantEvenJumpOffset p ++ wantImm p.pTo 21 ++ wantIntReg p.pFrom

/-- C9 (code evaluated at the failing input): `wantEvenJumpOffset` tests
`Offset % 1 != 0`, which is false for every offset, so a branch or jump whose
target offset is the odd value 3 passes `validateSB`/`validateUJ` with no
diagnostic at all, although 3 is odd; an even in-range offset also passes.
The even-alignment diagnostic demanded by the claim (and by the function's own
name and message) is never raised. -/
theorem C9_odd_offset_no_diagnostic :
    validateSB { pAs := .ABEQ, pFrom := { typ := .TYPE_REG, reg := 5 },
                 pTo := { typ := .TYPE_CONST, offset := 3 } } = [] ∧
    validateUJ { pAs := .AJAL, pFrom := { typ := .TYPE_REG, reg := 1 },
                 pTo := { typ := .TYPE_CONST, offset := 3 } } = [] ∧
    (3 : Int) % 2 ≠ 0 ∧
    validateSB { pAs := .ABEQ, pFrom := { typ := .TYPE_REG, reg := 5 },
                 pTo := { typ := .TYPE_CONST, offset := 8 } } = [] := by
  refine ⟨rfl, rfl, by decide, rfl⟩

/-! ## containsCall and frame sizing (asm.go lines 379-393 and 437-451) -/

/-- Embedding of `containsCall` (asm.go): reports whether the body contains a
CALL (or equivalent) instruction, i.e. obj.ACALL, or a JAL/JALR whose link
register (the To operand) is RA. -/
def containsCall (body : List Prog) : Bool :=
  body.any fun p =>
    match p.pAs with
    | .ACALL => true
    | .AJAL | .AJALR => p.pTo.typ == .TYPE_REG && p.pTo.reg == REG_RA
    | _ => false

/-- Embedding of the frame-sizing step of `preprocess` (asm.go lines 437-451):
`declared` is the TEXT prog's `To.Offset`, `noframe` the `obj.NOFRAME` bit of
its `GetFrom3().Offset` (flag bits are modelled as Bools).  A negative
declared size marks the function no-frame and is normalized to zero; RA is
saved when the body contains a call, unless no-frame; saving RA adds one
register width (8 bytes) to the stack size.  Returns the final stack size and
the saveRA decision. -/
def frameSize (declared : Int) (noframe : Bool) (body : List Prog) : Int × Bool :=
  let stacksize := if declared < 0 then 0 else declared
  let noframe := if declared < 0 then true else noframe
  let saveRA := if noframe then false else containsCall body
  if saveRA then (stacksize + 8, saveRA) else (stacksize, saveRA)

/-- C4: the link register is preserved exactly when the body contains a
call-like instruction and the function is not (explicitly or via a negative
declared size) marked no-frame; preserving it adds exactly 8 bytes, so a
function containing a call has a computed frame size exactly 8 larger than an
otherwise-identical call-free function. -/
theorem C4_frame_monotonicity (declared : Int) (bodyCall bodyFree : List Prog)
    (hd : 0 ≤ declared)
    (hc : containsCall bodyCall = true) (hf : containsCall bodyFree = false) :
    (∀ (d : Int) (nf : Bool) (body : List Prog),
       (frameSize d nf body).2 = (!(nf || decide (d < 0)) && containsCall body)) ∧
    (frameSize declared false bodyCall).2 = true ∧
    (frameSize declared false bodyCall).1 = declared + 8 ∧
    (frameSize declared false bodyFree).1 = declared ∧
    (frameSize declared false bodyCall).1 = (frameSize declared false bodyFree).1 + 8 := by
  have hneg : ¬(declared < 0) := by omega
  refine ⟨?_, ?_, ?_, ?_, ?_⟩
  · intro d nf body
    by_cases hdn : d < 0
    · simp [frameSize, hdn]
    · cases nf <;> cases hcb : containsCall body <;> simp [frameSize, hdn, hcb]
  · simp [frameSize, hneg, hc]
  · simp [frameSize, hneg, hc]
  · simp [frameSize, hneg, hf]
  · simp [frameSize, hneg, hc, hf]

theorem C4_frame_monotonicity_witness :
    (0 : Int) ≤ 16 ∧
    containsCall [{ pAs := .ACALL }] = true ∧
    containsCall [{ pAs := .AADD }] = false ∧
    (frameSize 16 false [{ pAs := .ACALL }]).1 = 16 + 8 ∧
    (frameSize 16 false [{ pAs := .AADD }]).1 = 16 :=
  ⟨by decide, by decide, by decide,
   (C4_frame_monotonicity 16 [{ pAs := .ACALL }] [{ pAs := .AADD }]
      (by decide) (by decide) (by decide)).2.2.1,
   (C4_frame_monotonicity 16 [{ pAs := .ACALL }] [{ pAs := .AADD }]
      (by decide) (by decide) (by decide)).2.2.2.1⟩

/-! ## Return lowering (asm.go lines 778-811) -/

/-- Embedding of the obj.ARET case of `preprocess` (asm.go lines 778-811):
the ARET prog `p0` is rewritten in place and fresh progs (ids `fresh`,
`fresh+1`) are appended as needed.  The Go code assigns individual Addr
fields, so unassigned fields keep their previous values (`p.From.Type` and
`p.From.Offset` assignments keep name/reg/sym, and full `p.From = Addr{...}`
assignments replace the whole operand). -/
def lowerRET (p0 : Prog) (saveRA : Bool) (stacksize : Int) (fresh : Nat) : List Prog :=
  let mkADDI : Prog → Prog := fun p =>
    { p with pAs := .AADDI,
             pFrom := { p.pFrom with typ := .TYPE_CONST, offset := stacksize },
             pFrom3 := { typ := .TYPE_REG, reg := REG_SP },
             pTo := { p.pTo with typ := .TYPE_REG, reg := REG_SP },
             pSpadj := -stacksize }
  let mkJALR : Prog → Prog := fun p =>
    { p with pAs := .AJALR,
             pFrom := { p.pFrom with typ := .TYPE_CONST, offset := 0 },
             pFrom3 := { typ := .TYPE_REG, reg := REG_RA },
             pTo := { p.pTo with typ := .TYPE_REG, reg := REG_ZERO },
             pSpadj := stacksize }
  if saveRA then
    let p1 := { p0 with pAs := .ALD,
                        pFrom3 := { typ := .TYPE_REG, reg := REG_SP },
                        pFrom := { typ := .TYPE_CONST, offset := 0 },
                        pTo := { typ := .TYPE_REG, reg := REG_RA } }
    if stacksize ≠ 0 then [p1, mkADDI { pId := fresh }, mkJALR { pId := fresh + 1 }]
    else [p1, mkJALR { pId := fresh }]
  else
    if stacksize ≠ 0 then [mkADDI p0, mkJALR { pId := fresh }]
    else [mkJALR p0]

/-- C6 counterexample: with RA preserved and frame size 16, the epilogue is
[load, stack-pointer restore, jump], but the restore (the ADDI) is annotated
with `Spadj = -16`, the negative of the frame size, not a positive adjustment;
the positive annotation `Spadj = +16` sits on the final indirect jump. -/
theorem C6_counterexample :
    ((lowerRET { pAs := .ARET } true 16 100).map Prog.pSpadj = [0, -16, 16]) ∧
    ((lowerRET { pAs := .ARET } true 16 100).map Prog.pAs = [.ALD, .AADDI, .AJALR]) ∧
    ¬((-16 : Int) = 16) := by
  refine ⟨rfl, rfl, by decide⟩

/-- C6 (amended): return lowering replaces the return pseudo-op by, in order:
a load restoring the link register when it was preserved, a stack-pointer
restore by `+framesize` when the frame size is non-zero, and an indirect jump
through the link register writing the zero register; the restore's stack
effect is annotated as `-framesize` and the final jump is annotated with the
positive adjustment `+framesize` (so later accounting passes do not
double-count adjustments across multiple epilogues). -/
theorem C6_ret_lowering (p0 : Prog) (s : Int) (fresh : Nat) (hs : s ≠ 0) :
    (∃ q1 q2 q3, lowerRET p0 true s fresh = [q1, q2, q3] ∧
      q1.pAs = .ALD ∧ q1.pFrom3.reg = REG_SP ∧ q1.pFrom.typ = .TYPE_CONST ∧
        q1.pFrom.offset = 0 ∧ q1.pTo.reg = REG_RA ∧
      q2.pAs = .AADDI ∧ q2.pFrom.typ = .TYPE_CONST ∧ q2.pFrom.offset = s ∧
        q2.pFrom3.reg = REG_SP ∧ q2.pTo.reg = REG_SP ∧ q2.pSpadj = -s ∧
      q3.pAs = .AJALR ∧ q3.pFrom.typ = .TYPE_CONST ∧ q3.pFrom.offset = 0 ∧
        q3.pFrom3.reg = REG_RA ∧ q3.pTo.reg = REG_ZERO ∧ q3.pSpadj = s) ∧
    (∃ q2 q3, lowerRET p0 false s fresh = [q2, q3] ∧
      q2.pAs = .AADDI ∧ q2.pSpadj = -s ∧ q3.pAs = .AJALR ∧ q3.pSpadj = s) ∧
    (∃ q1 q3, lowerRET p0 true 0 fresh = [q1, q3] ∧
      q1.pAs = .ALD ∧ q3.pAs = .AJALR ∧ q3.pSpadj = 0) ∧
    (∃ q3, lowerRET p0 false 0 fresh = [q3] ∧ q3.pAs = .AJALR ∧ q3.pSpadj = 0) := by
  have e1 : lowerRET p0 true s fresh =
      [{ p0 with pAs := .ALD, pFrom3 := { typ := .TYPE_REG, reg := REG_SP },
                 pFrom := { typ := .TYPE_CONST, offset := 0 },
                 pTo := { typ := .TYPE_REG, reg := REG_RA } },
       { pId := fresh, pAs := .AADDI, pFrom := { typ := .TYPE_CONST, offset := s },
         pFrom3 := { typ := .TYPE_REG, reg := REG_SP },
         pTo := { typ := .TYPE_REG, reg := REG_SP }, pSpadj := -s },
       { pId := fresh + 1, pAs := .AJALR, pFrom := { typ := .TYPE_CONST, offset := 0 },
         pFrom3 := { typ := .TYPE_REG, reg := REG_RA },
         pTo := { typ := .TYPE_REG, reg := REG_ZERO }, pSpadj := s }] := by
    simp [lowerRET, hs]
  have e2 : lowerRET p0 false s fresh =
      [{ p0 with pAs := .AADDI,
                 pFrom := { p0.pFrom with typ := .TYPE_CONST, offset := s },
                 pFrom3 := { typ := .TYPE_REG, reg := REG_SP },
                 pTo := { p0.pTo with typ := .TYPE_REG, reg := REG_SP }, pSpadj := -s },
       { pId := fresh, pAs := .AJALR, pFrom := { typ := .TYPE_CONST, offset := 0 },
         pFrom3 := { typ := .TYPE_REG, reg := REG_RA },
         pTo := { typ := .TYPE_REG, reg := REG_ZERO }, pSpadj := s }] := by
    simp [lowerRET, hs]
  have e3 : lowerRET p0 true 0 fresh =
      [{ p0 with pAs := .ALD, pFrom3 := { typ := .TYPE_REG, reg := REG_SP },
                 pFrom := { typ := .TYPE_CONST, offset := 0 },
                 pTo := { typ := .TYPE_REG, reg := REG_RA } },
       { pId := fresh, pAs := .AJALR, pFrom := { typ := .TYPE_CONST, offset := 0 },
         pFrom3 := { typ := .TYPE_REG, reg := REG_RA },
         pTo := { typ := .TYPE_REG, reg := REG_ZERO }, pSpadj := 0 }] := by
    simp [lowerRET]
  have e4 : lowerRET p0 false 0 fresh =
      [{ p0 with pAs := .AJALR,
                 pFrom := { p0.pFrom with typ := .TYPE_CONST, offset := 0 },
                 pFrom3 := { typ := .TYPE_REG, reg := REG_RA },
                 pTo := { p0.pTo with typ := .TYPE_REG, reg := REG_ZERO }, pSpadj := 0 }] := by
    simp [lowerRET]
  exact ⟨⟨_, _, _, e1, rfl, rfl, rfl, rfl, rfl, rfl, rfl, rfl, rfl, rfl, rfl, rfl, rfl, rfl,
    rfl, rfl, rfl⟩, ⟨_, _, e2, rfl, rfl, rfl, rfl⟩, ⟨_, _, e3, rfl, rfl, rfl⟩,
    ⟨_, e4, rfl, rfl⟩⟩

theorem C6_ret_lowering_witness :
    (16 : Int) ≠ 0 ∧
    (∃ q1 q2 q3, lowerRET { pAs := .ARET } true 16 0 = [q1, q2, q3] ∧
      q1.pAs = .ALD ∧ q1.pFrom3.reg = REG_SP ∧ q1.pFrom.typ = .TYPE_CONST ∧
        q1.pFrom.offset = 0 ∧ q1.pTo.reg = REG_RA ∧
      q2.pAs = .AADDI ∧ q2.pFrom.typ = .TYPE_CONST ∧ q2.pFrom.offset = 16 ∧
        q2.pFrom3.reg = REG_SP ∧ q2.pTo.reg = REG_SP ∧ q2.pSpadj = -16 ∧
      q3.pAs = .AJALR ∧ q3.pFrom.typ = .TYPE_CONST ∧ q3.pFrom.offset = 0 ∧
        q3.pFrom3.reg = REG_RA ∧ q3.pTo.reg = REG_ZERO ∧ q3.pSpadj = 16) :=
  ⟨by decide, (C6_ret_lowering { pAs := .ARET } 16 0 (by decide)).1⟩

/-! ## Stack-growth check emitter (asm.go: jalrToSym lines 106-143,
stacksplit lines 1013-1156)

The objabi stack constants (StackSmall, StackBig, StackGuard, StackPreempt)
and the ptr size are declared outside this package.  Modelled from the spec:
they are the small-frame threshold, the large-frame threshold, the guard
constant and the preemption sentinel of section 4.5; the embedding takes them
as parameters.  Symbols are modelled by identifiers. -/

def symMorestack : Nat := 0
def symMorestackNoctxt : Nat := 1
def symMorestackC : Nat := 2

/-- Embedding of `jalrToSym` (asm.go): replaces a CALL/JMP prog `p` with the
AUIPC / ADDI / JALR sequence that jumps to the symbol in `p.To`, using `lr` as
the link register.  The final prog reflects the `lowerjalr` normalization that
the Go code applies to the JALR (linkage register moved to To, target register
to From3, offset to From).  On any other opcode the Go code emits a diagnostic
and returns `p` unchanged. -/
def jalrToSym (p : Prog) (lr : Int) (fresh : Nat) : List Prog :=
  if p.pAs ≠ .ACALL ∧ p.pAs ≠ .AJMP then [p]
  else
    let toA := p.pTo
    [{ p with pAs := .AAUIPC,
              pFrom := { typ := .TYPE_CONST, offset := toA.offset, sym := toA.sym },
              pFrom3 := {},
              pTo := { typ := .TYPE_REG, reg := REG_TMP },
              markI := true },
     { pId := fresh, pAs := .AADDI,
       pFrom := { typ := .TYPE_CONST },
       pFrom3 := { typ := .TYPE_REG, reg := REG_TMP },
       pTo := { typ := .TYPE_REG, reg := REG_TMP } },
     { pId := fresh + 1, pAs := .AJALR,
       pFrom := { typ := .TYPE_CONST, offset := 0 },
       pFrom3 := { typ := .TYPE_REG, reg := REG_TMP },
       pTo := { typ := .TYPE_REG, reg := lr, sym := toA.sym } }]

/-- Embedding of `stacksplit` (asm.go): returns the list of progs the stack
check inserts after the prologue position.  A zero frame size emits nothing
(a leaf with no frame is effectively NOSPLIT).  Otherwise the guard load is
followed by the regime comparison (small / large / huge by frame size), the
morestack call (expanded through `jalrToSym`), the jump back to the function
start (`startId`), and the zero-width NOP landing pad that the regime's
forward branch (`to_done`) targets; in the huge regime the sentinel equality
branch (`to_more`) targets the call. -/
def stacksplit (framesize stackSmall stackBig stackGuard stackPreempt : Int)
    (cFunc needctxt : Bool) (fresh startId : Nat) : List Prog :=
  if framesize = 0 then []
  else
    let guardOffset : Int := if cFunc then 3 * 8 else 2 * 8
    let g1 : Prog :=
      { pId := fresh, pAs := .AMOV,
        pFrom := { typ := .TYPE_MEM, reg := REGG, offset := guardOffset },
        pTo := { typ := .TYPE_REG, reg := REG_A0 } }
    let rlen : Nat := if framesize ≤ stackSmall then 1
      else if framesize ≤ stackBig then 2 else 6
    let auipcId : Nat := fresh + 1 + rlen
    let jmpId : Nat := auipcId + 3
    let nopId : Nat := auipcId + 4
    let regime : List Prog :=
      if framesize ≤ stackSmall then
        [{ pId := fresh + 1, pAs := .ABLTU, pFrom := { typ := .TYPE_REG, reg := REG_A0 },
           pReg := REG_X2, pTo := { typ := .TYPE_BRANCH }, pPcond := some nopId }]
      else if framesize ≤ stackBig then
        [{ pId := fresh + 1, pAs := .AADDI,
           pFrom := { typ := .TYPE_CONST, offset := -framesize },
           pFrom3 := { typ := .TYPE_REG, reg := REG_X2 },
           pTo := { typ := .TYPE_REG, reg := REG_A1 } },
         { pId := fresh + 2, pAs := .ABLTU, pFrom := { typ := .TYPE_REG, reg := REG_A0 },
           pReg := REG_A1, pTo := { typ := .TYPE_BRANCH }, pPcond := some nopId }]
      else
        [{ pId := fresh + 1, pAs := .AMOV,
           pFrom := { typ := .TYPE_CONST, offset := stackPreempt },
           pTo := { typ := .TYPE_REG, reg := REG_A1 } },
         { pId := fresh + 2, pAs := .ABEQ, pFrom := { typ := .TYPE_REG, reg := REG_A0 },
           pReg := REG_A1, pTo := { typ := .TYPE_BRANCH }, pPcond := some auipcId },
         { pId := fresh + 3, pAs := .AADDI,
           pFrom := { typ := .TYPE_CONST, offset := stackGuard },
           pFrom3 := { typ := .TYPE_REG, reg := REG_X2 },
           pTo := { typ := .TYPE_REG, reg := REG_A1 } },
         { pId := fresh + 4, pAs := .ASUB, pFrom := { typ := .TYPE_REG, reg := REG_A0 },
           pFrom3 := { typ := .TYPE_REG, reg := REG_A1 },
           pTo := { typ := .TYPE_REG, reg := REG_A1 } },
         { pId := fresh + 5, pAs := .AMOV,
           pFrom := { typ := .TYPE_CONST, offset := framesize + stackGuard - stackSmall },
           pTo := { typ := .TYPE_REG, reg := REG_A0 } },
         { pId := fresh + 6, pAs := .ABLTU, pFrom := { typ := .TYPE_REG, reg := REG_A0 },
           pReg := REG_A1, pTo := { typ := .TYPE_BRANCH }, pPcond := some nopId }]
    let morestackSym : Nat :=
      if cFunc then symMorestackC
      else if !needctxt then symMorestackNoctxt else symMorestack
    let callProg : Prog :=
      { pId := auipcId, pAs := .ACALL, pReg := REG_T0,
        pTo := { typ := .TYPE_BRANCH, sym := some morestackSym } }
    let call : List Prog := jalrToSym callProg REG_T0 (auipcId + 1)
    let jmp : Prog :=
      { pId := jmpId, pAs := .AJAL,
        pFrom := { typ := .TYPE_REG, reg := REG_ZERO },
        pTo := { typ := .TYPE_BRANCH }, pPcond := some startId }
    let nop : Prog := { pId := nopId, pAs := .ANOP }
    g1 :: (regime ++ call ++ [jmp, nop])

/-- C5: the stack-growth check emitter emits no check for a zero frame size;
for a frame size above both thresholds the emitted sequence contains, before
the guard-band arithmetic, an explicit equality comparison of the stack limit
against the preemption sentinel, and the guard-band bound loaded for the final
unsigned comparison is framesize + (guard − small-threshold); a function
declaring a 1,000,000-byte frame (and thresholds as in objabi, below that)
gets exactly this huge-regime sequence. -/
theorem C5_stacksplit_regimes (ss sb sg sp framesize : Int) (cF nc : Bool)
    (fresh startId : Nat) (hss0 : 0 ≤ ss) (hss : ss ≤ sb) (hbig : sb < framesize)
    (hb6 : sb < 1000000) :
    stacksplit 0 ss sb sg sp cF nc fresh startId = [] ∧
    (∃ g l1 l2 l3 l4 l5 l6 rest,
      stacksplit framesize ss sb sg sp cF nc fresh startId
        = g :: l1 :: l2 :: l3 :: l4 :: l5 :: l6 :: rest ∧
      g.pAs = .AMOV ∧ g.pFrom.typ = .TYPE_MEM ∧ g.pFrom.reg = REGG ∧ g.pTo.reg = REG_A0 ∧
      l1.pAs = .AMOV ∧ l1.pFrom.typ = .TYPE_CONST ∧ l1.pFrom.offset = sp ∧
        l1.pTo.reg = REG_A1 ∧
      l2.pAs = .ABEQ ∧ l2.pFrom.reg = REG_A0 ∧ l2.pReg = REG_A1 ∧
      l3.pAs = .AADDI ∧ l3.pFrom.offset = sg ∧ l3.pTo.reg = REG_A1 ∧
      l4.pAs = .ASUB ∧
      l5.pAs = .AMOV ∧ l5.pFrom.offset = framesize + (sg - ss) ∧ l5.pTo.reg = REG_A0 ∧
      l6.pAs = .ABLTU) ∧
    (∃ g l1 l2 rest,
      stacksplit 1000000 ss sb sg sp cF nc fresh startId = g :: l1 :: l2 :: rest ∧
      l1.pAs = .AMOV ∧ l1.pFrom.offset = sp ∧ l2.pAs = .ABEQ) := by
  have hnz : framesize ≠ 0 := by omega
  have hs1 : ¬(framesize ≤ ss) := by omega
  have hs2 : ¬(framesize ≤ sb) := by omega
  have hm1 : ¬((1000000 : Int) = 0) := by omega
  have hm2 : ¬((1000000 : Int) ≤ ss) := by omega
  have hm3 : ¬((1000000 : Int) ≤ sb) := by omega
  refine ⟨by simp [stacksplit], ?_, ?_⟩
  · refine
      ⟨{ pId := fresh, pAs := .AMOV,
         pFrom := { typ := .TYPE_MEM, reg := REGG, offset := if cF then 3 * 8 else 2 * 8 },
         pTo := { typ := .TYPE_REG, reg := REG_A0 } },
       { pId := fresh + 1, pAs := .AMOV,
         pFrom := { typ := .TYPE_CONST, offset := sp },
         pTo := { typ := .TYPE_REG, reg := REG_A1 } },
       { pId := fresh + 2, pAs := .ABEQ, pFrom := { typ := .TYPE_REG, reg := REG_A0 },
         pReg := REG_A1, pTo := { typ := .TYPE_BRANCH }, pPcond := some (fresh + 1 + 6) },
       { pId := fresh + 3, pAs := .AADDI,
         pFrom := { typ := .TYPE_CONST, offset := sg },
         pFrom3 := { typ := .TYPE_REG, reg := REG_X2 },
         pTo := { typ := .TYPE_REG, reg := REG_A1 } },
       { pId := fresh + 4, pAs := .ASUB, pFrom := { typ := .TYPE_REG, reg := REG_A0 },
         pFrom3 := { typ := .TYPE_REG, reg := REG_A1 },
         pTo := { typ := .TYPE_REG, reg := REG_A1 } },
       { pId := fresh + 5, pAs := .AMOV,
         pFrom := { typ := .TYPE_CONST, offset := framesize + sg - ss },
         pTo := { typ := .TYPE_REG, reg := REG_A0 } },
       { pId := fresh + 6, pAs := .ABLTU, pFrom := { typ := .TYPE_REG, reg := REG_A0 },
         pReg := REG_A1, pTo := { typ := .TYPE_BRANCH }, pPcond := some (fresh + 1 + 6 + 4) },
       (stacksplit framesize ss sb sg sp cF nc fresh startId).drop 7,
       ?_, rfl, rfl, rfl, rfl, rfl, rfl, rfl, rfl, rfl, rfl, rfl, rfl, rfl, rfl, rfl, rfl,
       by ring, rfl, rfl⟩
    simp only [stacksplit, if_neg hnz, if_neg hs1, if_neg hs2, jalrToSym, List.cons_append,
      List.nil_append, List.append_nil, List.drop]
  · refine
      ⟨{ pId := fresh, pAs := .AMOV,
         pFrom := { typ := .TYPE_MEM, reg := REGG, offset := if cF then 3 * 8 else 2 * 8 },
         pTo := { typ := .TYPE_REG, reg := REG_A0 } },
       { pId := fresh + 1, pAs := .AMOV,
         pFrom := { typ := .TYPE_CONST, offset := sp },
         pTo := { typ := .TYPE_REG, reg := REG_A1 } },
       { pId := fresh + 2, pAs := .ABEQ, pFrom := { typ := .TYPE_REG, reg := REG_A0 },
         pReg := REG_A1, pTo := { typ := .TYPE_BRANCH }, pPcond := some (fresh + 1 + 6) },
       (stacksplit 1000000 ss sb sg sp cF nc fresh startId).drop 3,
       ?_, rfl, rfl, rfl⟩
    simp only [stacksplit, if_neg hm1, if_neg hm2, if_neg hm3, jalrToSym, List.cons_append,
      List.nil_append, List.append_nil, List.drop]

theorem C5_stacksplit_regimes_witness :
    ((0 : Int) ≤ 128 ∧ (128 : Int) ≤ 4096 ∧ (4096 : Int) < 1000000) ∧
    (∃ g l1 l2 rest,
      stacksplit 1000000 128 4096 880 (-1314) false false 0 0 = g :: l1 :: l2 :: rest ∧
      l1.pAs = .AMOV ∧ l1.pFrom.offset = -1314 ∧ l2.pAs = .ABEQ) :=
  ⟨⟨by decide, by decide, by decide⟩,
   (C5_stacksplit_regimes 128 4096 880 (-1314) 1000000 false false 0 0
      (by decide) (by decide) (by decide) (by decide)).2.2⟩

/-! ## Branch and jump relaxation (asm.go lines 344-355 and 925-1005)

The intrusive linked Prog list is modelled as `List Prog` with `pPcond`
holding the target prog's identifier.  `obj.Appendp` becomes insertion of a
fresh prog (zero fields, fresh id) after the current position; the Go loop
`for p := ...; p = p.Link` continuing into a just-inserted prog becomes a
recursive call on the list with the inserted prog at its head. -/

/-- Length used by `setpcs` via `encodingForP` (asm.go): 4 bytes for concrete
RISC-V instructions; 0 for the directive pseudo-ops (TEXT, NOP, FUNCDATA,
PCDATA, pseudoOpEncoding) and for obj pseudo-ops with no table entry, where
`encodingForP` emits a diagnostic and returns the zero-length `badEncoding`. -/
def encLength : As → Int
  | .ATEXT | .ANOP | .AFUNCDATA | .APCDATA => 0
  | .AXXX | .ACALL | .AJMP | .ARET | .AMOV => 0
  | _ => 4

/-- Embedding of `setpcs` (asm.go lines 350-355): sets the Pc field in all
instructions reachable from the head, starting at `pc`. -/
def setpcs (pc : Int) : List Prog → List Prog
  | [] => []
  | p :: rest => { p with pPc := pc } :: setpcs (pc + encLength p.pAs) rest

/-- Looks a prog up by identifier, modelling a Prog pointer dereference. -/
def findP (l : List Prog) (t : Nat) : Option Prog := l.find? fun q => q.pId == t

/-- Reads `Pcond.Pc` through the identifier reference. -/
def lookPc (l : List Prog) (t : Nat) : Option Int := (findP l t).map Prog.pPc

/-- Conditional-branch opcodes, the six cases of the relaxation switch. -/
def isCondBranch : As → Bool
  | .ABEQ | .ABNE | .ABLT | .ABGE | .ABLTU | .ABGEU => true
  | _ => false

/-- Termination weight of a single pass: a conditional branch can spawn one
JAL, a JAL can spawn one JALR, everything else is passed over. -/
def passWeight : As → Nat
  | .ABEQ | .ABNE | .ABLT | .ABGE | .ABLTU | .ABGEU => 2
  | .AJAL => 1
  | _ => 0

def passMeasure (l : List Prog) : Nat :=
  l.length + (l.map fun p => passWeight p.pAs).sum

lemma passWeight_of_isCondBranch {a : As} (h : isCondBranch a = true) : passWeight a = 2 := by
  cases a <;> simp_all [isCondBranch, passWeight]

/-- Embedding of the inner rescan loop body of `preprocess` (asm.go lines
932-975): walks the instruction list; a conditional branch whose displacement
is outside [-4096, 4096) gets an unconditional AJAL to the old target
inserted after it and is itself inverted to target the prog after that jump;
an AJAL whose displacement is outside [-2^20, 2^20) is rewritten to an AUIPC
(keeping its Pcond, From becomes TYPE_BRANCH) with a JALR inserted after it.
The walk continues at the inserted prog, as the Go loop does via `p = p.Link`.
`snap` is the function as left by the preceding `setpcs`; the pass never
writes a Pc field, and inserted progs carry Pc 0 like a fresh Go Prog.
Go panics (branch whose To is not TYPE_BRANCH, JAL with nil Pcond, branch
with nil Pcond, dangling target pointer) are modelled as `none`.  Returns the
rewritten list, whether anything was relaxed, and the next fresh id. -/
def onePass (snap : List Prog) : List Prog → Nat → Option (List Prog × Bool × Nat)
  | [], fresh => some ([], false, fresh)
  | p :: rest, fresh =>
    if hb : isCondBranch p.pAs then
      if p.pTo.typ ≠ .TYPE_BRANCH then none
      else
        match p.pPcond with
        | none => none
        | some t =>
          match lookPc snap t with
          | none => none
          | some tpc =>
            if tpc - p.pPc < -4096 ∨ 4096 ≤ tpc - p.pPc then
              match InvertBranch p.pAs with
              | none => none
              | some inv =>
                match onePass snap
                    ({ pId := fresh, pAs := .AJAL,
                       pFrom := { typ := .TYPE_REG, reg := REG_ZERO },
                       pTo := { typ := .TYPE_BRANCH }, pPcond := p.pPcond } :: rest)
                    (fresh + 1) with
                | none => none
                | some (out, _, f2) =>
                  some ({ p with pAs := inv, pPcond := rest.head?.map Prog.pId } :: out,
                    true, f2)
            else
              match onePass snap rest fresh with
              | none => none
              | some (out, ch, f2) => some (p :: out, ch, f2)
    else if hj : p.pAs = .AJAL then
      match p.pPcond with
      | none => none
      | some t =>
        match lookPc snap t with
        | none => none
        | some tpc =>
          if tpc - p.pPc < -(2 ^ 20) ∨ 2 ^ 20 ≤ tpc - p.pPc then
            match onePass snap
                ({ pId := fresh, pAs := .AJALR,
                   pFrom := { typ := .TYPE_CONST, offset := 0 },
                   pTo := p.pFrom,
                   pFrom3 := { typ := .TYPE_REG, reg := REG_TMP } } :: rest)
                (fresh + 1) with
            | none => none
            | some (out, _, f2) =>
              some
                ({ p with
                    pAs := .AAUIPC,
                    pFrom := { typ := .TYPE_BRANCH },
                    pFrom3 := {},
                    pTo := { typ := .TYPE_REG, reg := REG_TMP } } :: out, true, f2)
          else
            match onePass snap rest fresh with
            | none => none
            | some (out, ch, f2) => some (p :: out, ch, f2)
    else
      match onePass snap rest fresh with
      | none => none
      | some (out, ch, f2) => some (p :: out, ch, f2)
termination_by l _ => passMeasure l
decreasing_by
  · have h2 := passWeight_of_isCondBranch hb
    have h3 : passWeight As.AJAL = 1 := rfl
    simp only [passMeasure, List.length_cons, List.map_cons, List.sum_cons, h2, h3]
    omega
  · simp only [passMeasure, List.length_cons, List.map_cons, List.sum_cons]
    omega
  · have h3 : passWeight As.AJAL = 1 := rfl
    have h4 : passWeight As.AJALR = 0 := rfl
    simp only [passMeasure, List.length_cons, List.map_cons, List.sum_cons, hj, h3, h4]
    omega
  · simp only [passMeasure, List.length_cons, List.map_cons, List.sum_cons]
    omega
  · simp only [passMeasure, List.length_cons, List.map_cons, List.sum_cons]
    omega

/-- Embedding of the outer fixed-point loop of `preprocess` (asm.go lines
929-980): recompute addresses with `setpcs 0`, scan, and repeat while some
instruction was relaxed.  `fuel` bounds the number of iterations (the
convergence theorem exhibits a sufficient fuel); the Bool of the result is
true if the loop exited because nothing needed relaxation. -/
def relaxLoop : Nat → List Prog → Nat → Option (List Prog × Bool)
  | 0, l, _ => some (l, false)
  | fuel + 1, l, fresh =>
    match onePass (setpcs 0 l) (setpcs 0 l) fresh with
    | none => none
    | some (out, rescan, f2) =>
      if rescan then relaxLoop fuel out f2 else some (out, true)

/-- Embedding of the displacement-resolution loop of `preprocess` (asm.go
lines 985-1005): a branch or AJAL whose To is TYPE_BRANCH becomes TYPE_CONST
with offset `Pcond.Pc - p.Pc` (a TYPE_MEM To panics); an AUIPC whose From is
TYPE_BRANCH (left by jump relaxation) gets the Split32BitImmediate parts of
its displacement, the high part replacing its From and the low part stored
into the following prog's From offset (a Split32 error is only a diagnostic,
and the parts keep the zero values Go returns with the error). -/
def resolve (snap : List Prog) : List Prog → Option (List Prog)
  | [] => some []
  | p :: rest =>
    if isCondBranch p.pAs ∨ p.pAs = .AJAL then
      match p.pTo.typ with
      | .TYPE_BRANCH =>
        match p.pPcond with
        | none => none
        | some t =>
          match lookPc snap t with
          | none => none
          | some tpc =>
            (resolve snap rest).map
              (({ p with pTo := { p.pTo with typ := .TYPE_CONST, offset := tpc - p.pPc } }) :: ·)
      | .TYPE_MEM => none
      | _ => (resolve snap rest).map (p :: ·)
    else if p.pAs = .AAUIPC ∧ p.pFrom.typ = .TYPE_BRANCH then
      match p.pPcond with
      | none => none
      | some t =>
        match lookPc snap t with
        | none => none
        | some tpc =>
          match rest with
          | [] => none
          | q :: rest2 =>
            let lh := (Split32BitImmediate (tpc - p.pPc)).getD (0, 0)
            (resolve snap ({ q with pFrom := { q.pFrom with offset := lh.1 } } :: rest2)).map
              (({ p with pFrom := { typ := .TYPE_CONST, offset := lh.2 } }) :: ·)
    else
      (resolve snap rest).map (p :: ·)
termination_by l => l.length
decreasing_by
  all_goals simp only [List.length_cons]
  all_goals omega

/-- Displacement of a branch or jump prog relative to the pcs recorded in `l`:
target Pc minus own Pc. -/
def disp (l : List Prog) (p : Prog) : Option Int :=
  p.pPcond.bind fun t => (lookPc l t).map fun tpc => tpc - p.pPc

def idsOf (l : List Prog) : List Nat := l.map Prog.pId

/-- Shape left by branch relaxation: the relaxed branch is followed by the
inserted AJAL (or by the AUIPC/JALR pair that a later relaxation of that AJAL
leaves) and targets the prog immediately after it. -/
def shapedAt (p : Prog) : List Prog → Bool
  | j :: k :: rest =>
    (j.pAs == .AJAL && p.pPcond == some k.pId) ||
    (match rest with
     | q :: _ => j.pAs == .AAUIPC && k.pAs == .AJALR && p.pPcond == some q.pId
     | [] => false)
  | _ => false

/-- Pass measure that is monotone across iterations of the fixed-point loop:
a conditional branch still outside the relaxed shape counts 3, a JAL counts 1. -/
def mw : List Prog → Nat
  | [] => 0
  | p :: rest =>
    (if isCondBranch p.pAs then (if shapedAt p rest then 0 else 3)
     else if p.pAs = .AJAL then 1 else 0) + mw rest

/-! ### Well-formedness of a function body for the relaxation loop

These predicates package what the Go code assumes of a `cursym.Func.Text`
chain: every conditional branch carries a `TYPE_BRANCH` destination and a
non-nil `Pcond` pointing at a prog of the function, every `AJAL` carries a
non-nil `Pcond` likewise (the nil case is the "intersymbol jumps" panic),
and the function does not end in a conditional branch (the relaxation sets
`p.Pcond = jmp.Link`, which would be nil for a trailing branch). -/

def pcondOkB (snap : List Prog) (p : Prog) : Bool :=
  match p.pPcond with
  | some t => (idsOf snap).contains t
  | none => false

def branchWFa (snap l : List Prog) : Bool :=
  l.all fun p =>
    (!isCondBranch p.pAs || ((p.pTo.typ == .TYPE_BRANCH) && pcondOkB snap p)) &&
    (!(p.pAs == .AJAL) || pcondOkB snap p)

def branchWF (l : List Prog) : Bool := branchWFa l l

def lastNotBranch (l : List Prog) : Bool :=
  match l.getLast? with
  | some p => !isCondBranch p.pAs
  | none => true

/-- Invariant carried through the scan: the remaining worklist is a suffix of
the snapshot, possibly with one freshly inserted jump prog at its head. -/
def Pre (snap l : List Prog) (fresh : Nat) : Prop :=
  (∀ i ∈ idsOf l, i < fresh) ∧ (idsOf l).Nodup ∧ lastNotBranch l = true ∧
  (l <:+ snap ∨ ∃ x s, l = x :: s ∧ s <:+ snap ∧
    (x.pAs = .AJALR ∨ (x.pAs = .AJAL ∧ pcondOkB snap x = true)))

/-- The displacement checks of the relaxation switch hold for `p`. -/
def inRangeAt (snap : List Prog) (p : Prog) : Prop :=
  (isCondBranch p.pAs = true → ∃ d, disp snap p = some d ∧ -4096 ≤ d ∧ d < 4096) ∧
  (p.pAs = .AJAL → ∃ d, disp snap p = some d ∧ -(2 ^ 20) ≤ d ∧ d < 2 ^ 20)

def targetsOk (snap out : List Prog) : Prop :=
  ∀ p ∈ out,
    (isCondBranch p.pAs = true → p.pTo.typ = .TYPE_BRANCH ∧ pcondOkB snap p = true) ∧
    (p.pAs = .AJAL → pcondOkB snap p = true)

lemma pcondOkB_iff {snap : List Prog} {p : Prog} :
    pcondOkB snap p = true ↔ ∃ t, p.pPcond = some t ∧ t ∈ idsOf snap := by
  cases h : p.pPcond with
  | none => simp [pcondOkB, h]
  | some t => simp [pcondOkB, h, List.elem_iff]

lemma branchWFa_mem {snap l : List Prog} {p : Prog} (h : branchWFa snap l = true)
    (hp : p ∈ l) :
    (isCondBranch p.pAs = true → p.pTo.typ = .TYPE_BRANCH ∧ pcondOkB snap p = true) ∧
    (p.pAs = .AJAL → pcondOkB snap p = true) := by
  have h2 := (List.all_eq_true.mp h) p hp
  constructor
  · intro hb
    simp only [hb, Bool.not_true, Bool.false_or, Bool.and_eq_true, beq_iff_eq] at h2
    exact ⟨h2.1.1, h2.1.2⟩
  · intro hj
    simp only [hj, Bool.and_eq_true] at h2
    rcases h2 with ⟨-, h3⟩
    rcases Bool.or_eq_true _ _ |>.mp h3 with h4 | h4
    · simp at h4
    · exact h4

lemma mem_ids_of_lookPc {l : List Prog} {t : Nat} {c : Int}
    (h : lookPc l t = some c) : t ∈ idsOf l := by
  rcases Option.map_eq_some'.mp h with ⟨q, hq, -⟩
  have h1 := List.find?_some hq
  have h2 := List.mem_of_find?_eq_some hq
  simp only [beq_iff_eq] at h1
  exact h1 ▸ List.mem_map.mpr ⟨q, h2, rfl⟩

lemma lookPc_some_of_mem_ids {l : List Prog} {t : Nat}
    (h : t ∈ idsOf l) : ∃ c, lookPc l t = some c := by
  rcases List.mem_map.mp h with ⟨q, hq, hid⟩
  have : (List.find? (fun q => q.pId == t) l).isSome = true :=
    List.find?_isSome.mpr ⟨q, hq, by simp [hid]⟩
  rcases Option.isSome_iff_exists.mp this with ⟨r, hr⟩
  exact ⟨r.pPc, by simp [lookPc, findP, hr]⟩

lemma lookPc_of_mem {l : List Prog} {p : Prog} (hN : (idsOf l).Nodup)
    (hp : p ∈ l) : lookPc l p.pId = some p.pPc := by
  induction l with
  | nil => cases hp
  | cons a l ih =>
    rcases List.mem_cons.mp hp with rfl | hp2
    · simp [lookPc, findP, List.find?_cons_of_pos]
    · have hNc := List.nodup_cons.mp (show (a.pId :: idsOf l).Nodup from hN)
      have hN2 : (idsOf l).Nodup := hNc.2
      have hane : a.pId ∉ idsOf l := hNc.1
      have hne : (a.pId == p.pId) = false := by
        rw [beq_eq_false_iff_ne]
        intro he
        exact hane (he ▸ List.mem_map.mpr ⟨p, hp2, rfl⟩)
      have := ih hN2 hp2
      simp only [lookPc, findP] at this ⊢
      rw [List.find?_cons_of_neg _ (by simp [hne])]
      exact this

lemma idsOf_setpcs (c : Int) (l : List Prog) : idsOf (setpcs c l) = idsOf l := by
  induction l generalizing c with
  | nil => rfl
  | cons p rest ih => simp [setpcs, idsOf] at ih ⊢; exact ih _

lemma shapedAt_setpcs (q : Prog) (c : Int) (l : List Prog) :
    shapedAt q (setpcs c l) = shapedAt q l := by
  match l with
  | [] => rfl
  | [j] => rfl
  | j :: k :: rest =>
    cases rest with
    | nil => rfl
    | cons r rest2 => rfl

lemma shapedAt_pPc (q : Prog) (c : Int) (l : List Prog) :
    shapedAt { q with pPc := c } l = shapedAt q l := by
  match l with
  | [] => rfl
  | [j] => rfl
  | j :: k :: rest =>
    cases rest with
    | nil => rfl
    | cons r rest2 => rfl

lemma mw_setpcs (c : Int) (l : List Prog) : mw (setpcs c l) = mw l := by
  induction l generalizing c with
  | nil => rfl
  | cons p rest ih =>
    simp only [setpcs, mw, shapedAt_setpcs, shapedAt_pPc]
    rw [ih]

lemma setpcs_setpcs (c : Int) (l : List Prog) : setpcs c (setpcs c l) = setpcs c l := by
  induction l generalizing c with
  | nil => rfl
  | cons p rest ih => simp only [setpcs]; rw [ih]

lemma lastNotBranch_setpcs (c : Int) (l : List Prog) :
    lastNotBranch (setpcs c l) = lastNotBranch l := by
  induction l generalizing c with
  | nil => rfl
  | cons p rest ih =>
    cases rest with
    | nil => rfl
    | cons q rest2 =>
      simp only [setpcs] at ih ⊢
      simp only [lastNotBranch, List.getLast?_cons_cons] at ih ⊢
      exact ih _

lemma pcondOkB_setpcs (c : Int) (snap : List Prog) (p : Prog) :
    pcondOkB (setpcs c snap) p = pcondOkB snap p := by
  simp [pcondOkB, idsOf_setpcs]

lemma branchWFa_setpcs_right (c : Int) (snap l : List Prog) :
    branchWFa snap (setpcs c l) = branchWFa snap l := by
  induction l generalizing c with
  | nil => rfl
  | cons p rest ih =>
    simp only [setpcs, branchWFa, List.all_cons] at ih ⊢
    rw [ih]
    rfl

lemma branchWFa_setpcs_left (c : Int) (snap l : List Prog) :
    branchWFa (setpcs c snap) l = branchWFa snap l := by
  induction l with
  | nil => rfl
  | cons p rest ih =>
    simp only [branchWFa, List.all_cons] at ih ⊢
    rw [ih, pcondOkB_setpcs]

lemma branchWF_setpcs (c : Int) (l : List Prog) :
    branchWF (setpcs c l) = branchWF l := by
  rw [branchWF, branchWF, branchWFa_setpcs_left, branchWFa_setpcs_right]

lemma encLength_of_isCondBranch {a : As} (h : isCondBranch a = true) :
    encLength a = 4 := by
  cases a <;> simp_all [isCondBranch, encLength]

lemma InvertBranch_of_isCondBranch {a : As} (h : isCondBranch a = true) :
    ∃ b, InvertBranch a = some b ∧ isCondBranch b = true := by
  cases a <;> simp_all [isCondBranch, InvertBranch]

lemma isCondBranch_ne_AJAL {a : As} (h : isCondBranch a = true) : a ≠ .AJAL := by
  cases a <;> simp_all [isCondBranch]

lemma suffix_getLast? {l m : List Prog} (h : l <:+ m) (hne : l ≠ []) :
    m.getLast? = l.getLast? := by
  rcases h with ⟨pre, rfl⟩
  rw [List.getLast?_append]
  cases hg : l.getLast? with
  | none => exact absurd (List.getLast?_eq_none_iff.mp hg) hne
  | some p => rfl

lemma lastNotBranch_suffix {l m : List Prog} (h : l <:+ m) (hm : lastNotBranch m = true) :
    lastNotBranch l = true := by
  cases hl : l with
  | nil => rfl
  | cons a l2 =>
    rw [← hl]
    have : m.getLast? = l.getLast? := suffix_getLast? h (by simp [hl])
    simpa [lastNotBranch, ← this] using hm

/-- In a list that is a fixed point of `setpcs` (which every snapshot is,
since the loop body starts by recomputing addresses), consecutive progs have
pcs that differ by the encoded length of the first. -/
lemma setpcs_fix_adjacent :
    ∀ (c : Int) (l : List Prog), setpcs c l = l →
      ∀ p q t, (p :: q :: t) <:+ l → q.pPc = p.pPc + encLength p.pAs := by
  intro c l
  induction l generalizing c with
  | nil =>
    intro _ p q t hsuf
    have := hsuf.length_le
    simp at this
  | cons a l2 ih =>
    intro hfix p q t hsuf
    have hfix2 : setpcs (c + encLength a.pAs) l2 = l2 := by
      have := congrArg List.tail hfix
      simpa [setpcs] using this
    have hac : a.pPc = c := by
      have := congrArg (fun x => (x.head?.map Prog.pPc)) hfix
      simpa [setpcs, eq_comm] using this
    rcases List.suffix_cons_iff.mp hsuf with heq | hsuf2
    · obtain ⟨rfl, h2⟩ : p = a ∧ q :: t = l2 := by
        constructor
        · exact (List.cons_eq_cons.mp heq).1
        · exact (List.cons_eq_cons.mp heq).2
      have hqc : q.pPc = c + encLength p.pAs := by
        have := congrArg (fun x => (x.head?.map Prog.pPc)) (h2 ▸ hfix2)
        simpa [setpcs, eq_comm] using this
      rw [hqc, hac]
    · exact ih (c + encLength a.pAs) hfix2 p q t hsuf2

/-- A branch in the relaxed shape targets the prog 8 or 12 bytes below it,
so (in a pc-consistent snapshot) its displacement check always passes. -/
lemma shaped_disp {snap : List Prog} (hfix : setpcs 0 snap = snap)
    (hN : (idsOf snap).Nodup) {p : Prog} {rest : List Prog}
    (hsuf : (p :: rest) <:+ snap) (hbr : isCondBranch p.pAs = true)
    (hsh : shapedAt p rest = true) :
    ∃ t tpc, p.pPcond = some t ∧ lookPc snap t = some tpc ∧
      (tpc - p.pPc = 8 ∨ tpc - p.pPc = 12) := by
  match rest, hsh with
  | j :: k :: rest2, hsh =>
    have hadj1 : j.pPc = p.pPc + encLength p.pAs :=
      setpcs_fix_adjacent 0 snap hfix p j (k :: rest2) hsuf
    have hsufj : (j :: k :: rest2) <:+ snap :=
      (List.suffix_cons p (j :: k :: rest2)).trans hsuf
    have hadj2 : k.pPc = j.pPc + encLength j.pAs :=
      setpcs_fix_adjacent 0 snap hfix j k rest2 hsufj
    cases rest2 with
    | nil =>
      simp only [shapedAt, Bool.or_eq_true, Bool.and_eq_true, beq_iff_eq] at hsh
      rcases hsh with ⟨hjal, hpc⟩ | hsh2
      · refine ⟨k.pId, k.pPc, hpc, lookPc_of_mem hN (hsuf.subset (by simp)), ?_⟩
        left
        rw [hadj2, hadj1, hjal, encLength_of_isCondBranch hbr]
        simp only [encLength]
        ring
      · simp at hsh2
    | cons q rest3 =>
      simp only [shapedAt, Bool.or_eq_true, Bool.and_eq_true, beq_iff_eq] at hsh
      rcases hsh with ⟨hjal, hpc⟩ | ⟨⟨hau, hjr⟩, hpc⟩
      · refine ⟨k.pId, k.pPc, hpc, lookPc_of_mem hN (hsuf.subset (by simp)), ?_⟩
        left
        rw [hadj2, hadj1, hjal, encLength_of_isCondBranch hbr]
        simp only [encLength]
        ring
      · have hsufk : (k :: q :: rest3) <:+ snap :=
          (List.suffix_cons j (k :: q :: rest3)).trans hsufj
        have hadj3 : q.pPc = k.pPc + encLength k.pAs :=
          setpcs_fix_adjacent 0 snap hfix k q rest3 hsufk
        refine ⟨q.pId, q.pPc, hpc, lookPc_of_mem hN (hsuf.subset (by simp)), ?_⟩
        right
        rw [hadj3, hadj2, hadj1, hau, hjr, encLength_of_isCondBranch hbr]
        simp only [encLength]
        ring

/-- Structural bookkeeping of a single relaxation scan: the head prog keeps
its identity, identifiers of the output are those of the input plus a fresh
segment, a scan that relaxed nothing returns its input unchanged, and
nodup-ness and the trailing-instruction property are preserved. -/
def Frame (l : List Prog) (fresh : Nat) (res : List Prog) (rch : Bool) (rf2 : Nat) : Prop :=
  res.head?.map Prog.pId = l.head?.map Prog.pId ∧
  fresh ≤ rf2 ∧
  (∀ i, i ∈ idsOf res ↔ i ∈ idsOf l ∨ (fresh ≤ i ∧ i < rf2)) ∧
  (rch = false → res = l ∧ rf2 = fresh) ∧
  ((∀ i ∈ idsOf l, i < fresh) → (idsOf l).Nodup → (idsOf res).Nodup) ∧
  (lastNotBranch l = true → lastNotBranch res = true)

lemma lastNotBranch_cons_cons (p k : Prog) (r : List Prog) :
    lastNotBranch (p :: k :: r) = lastNotBranch (k :: r) := by
  simp [lastNotBranch, List.getLast?_cons_cons]

lemma idsOf_cons (p : Prog) (l : List Prog) : idsOf (p :: l) = p.pId :: idsOf l := rfl

lemma Frame.consPass {p : Prog} {rest out1 : List Prog} {fresh f21 : Nat} {fst1 : Bool}
    (h : Frame rest fresh out1 fst1 f21) :
    Frame (p :: rest) fresh (p :: out1) fst1 f21 := by
  obtain ⟨hhd, hle, hiff, hnoch, hnd, hlast⟩ := h
  refine ⟨by simp, hle, ?_, ?_, ?_, ?_⟩
  · intro i
    simp only [idsOf_cons, List.mem_cons, hiff i]
    tauto
  · intro hf
    obtain ⟨rfl, rfl⟩ := hnoch hf
    exact ⟨rfl, rfl⟩
  · intro hFresh hN
    rw [idsOf_cons] at hN ⊢
    obtain ⟨hnin, hNt⟩ := List.nodup_cons.mp hN
    refine List.nodup_cons.mpr ⟨?_, hnd (fun i hi => hFresh i (by simp [idsOf_cons, hi])) hNt⟩
    intro hmem
    rcases (hiff _).mp hmem with h1 | h1
    · exact hnin h1
    · have := hFresh p.pId (by simp [idsOf_cons])
      omega
  · intro hl
    cases rest with
    | nil =>
      have : out1 = [] := by
        cases out1 with
        | nil => rfl
        | cons a o => simp at hhd
      subst this
      exact hl
    | cons k r =>
      have hne : out1 ≠ [] := by
        cases out1 with
        | nil => simp at hhd
        | cons a o => simp
      obtain ⟨a, o, rfl⟩ := List.exists_cons_of_ne_nil hne
      rw [lastNotBranch_cons_cons] at hl ⊢
      exact hlast hl

lemma Frame.relaxPass {p pI x : Prog} {rest out1 : List Prog} {fresh f21 : Nat} {fst1 : Bool}
    (h : Frame (x :: rest) (fresh + 1) out1 fst1 f21)
    (hpid : pI.pId = p.pId) (hxid : x.pId = fresh)
    (hxnb : isCondBranch x.pAs = false) :
    Frame (p :: rest) fresh (pI :: out1) true f21 := by
  obtain ⟨hhd, hle, hiff, _, hnd, hlast⟩ := h
  refine ⟨by simp [hpid], by omega, ?_, by simp, ?_, ?_⟩
  · intro i
    simp only [idsOf_cons, List.mem_cons, hpid, hiff i, hxid]
    constructor
    · rintro (rfl | h1 | h1)
      · exact Or.inl (Or.inl rfl)
      · rcases h1 with rfl | h1
        · exact Or.inr ⟨by omega, by omega⟩
        · exact Or.inl (Or.inr h1)
      · exact Or.inr ⟨by omega, h1.2⟩
    · rintro ((rfl | h1) | h1)
      · exact Or.inl rfl
      · exact Or.inr (Or.inl (Or.inr h1))
      · rcases Nat.eq_or_lt_of_le h1.1 with rfl | hlt
        · exact Or.inr (Or.inl (Or.inl rfl))
        · exact Or.inr (Or.inr ⟨by omega, h1.2⟩)
  · intro hFresh hN
    rw [idsOf_cons] at hN ⊢
    obtain ⟨hnin, hNt⟩ := List.nodup_cons.mp hN
    have hNsub : (idsOf (x :: rest)).Nodup := by
      rw [idsOf_cons, hxid]
      refine List.nodup_cons.mpr ⟨?_, hNt⟩
      intro hmem
      have := hFresh fresh (by simp [idsOf_cons, hmem])
      omega
    have hFsub : ∀ i ∈ idsOf (x :: rest), i < fresh + 1 := by
      intro i hi
      rw [idsOf_cons, hxid] at hi
      rcases List.mem_cons.mp hi with rfl | hi2
      · omega
      · have := hFresh i (by simp [idsOf_cons, hi2])
        omega
    refine List.nodup_cons.mpr ⟨?_, hnd hFsub hNsub⟩
    rw [hpid]
    intro hmem
    rcases (hiff _).mp hmem with h1 | h1
    · rw [idsOf_cons, hxid] at h1
      rcases List.mem_cons.mp h1 with rfl | h2
      · have := hFresh p.pId (by simp [idsOf_cons])
        omega
      · exact hnin h2
    · have := hFresh p.pId (by simp [idsOf_cons])
      omega
  · intro hl
    have hne : out1 ≠ [] := by
      cases out1 with
      | nil => simp at hhd
      | cons a o => simp
    obtain ⟨a, o, rfl⟩ := List.exists_cons_of_ne_nil hne
    rw [lastNotBranch_cons_cons]
    refine hlast ?_
    cases rest with
    | nil => simp [lastNotBranch, hxnb]
    | cons k r =>
      rw [lastNotBranch_cons_cons] at hl ⊢
      exact hl

lemma onePass_frame (snap : List Prog) :
    ∀ l fresh res rch rf2, onePass snap l fresh = some (res, rch, rf2) →
      Frame l fresh res rch rf2 := by
  intro l fresh
  induction l, fresh using onePass.induct snap with
  | case1 fresh =>
    intro res rch rf2 heq
    rw [onePass] at heq
    simp only [Option.some.injEq, Prod.mk.injEq] at heq
    obtain ⟨rfl, rfl, rfl⟩ := heq
    refine ⟨rfl, le_refl _, ?_, fun _ => ⟨rfl, rfl⟩, fun _ h => h, fun h => h⟩
    intro i
    simp [idsOf]
  | case2 p rest fresh hb hne =>
    intro res rch rf2 heq
    rw [onePass, dif_pos hb, if_pos hne] at heq
    simp at heq
  | case3 p rest fresh hb hnn hpc =>
    intro res rch rf2 heq
    rw [onePass, dif_pos hb, if_neg hnn, hpc] at heq
    simp at heq
  | case4 p rest fresh hb hnn t hpc hlook =>
    intro res rch rf2 heq
    rw [onePass, dif_pos hb, if_neg hnn, hpc] at heq
    simp [hlook] at heq
  | case5 p rest fresh hb hnn t hpc tpc hlook hoor hinv =>
    intro res rch rf2 heq
    rw [onePass, dif_pos hb, if_neg hnn, hpc] at heq
    simp [hlook, if_pos hoor, hinv] at heq
  | case6 p rest fresh hb hnn t hpc tpc hlook hoor inv hinv hrec ih =>
    intro res rch rf2 heq
    rw [onePass, dif_pos hb, if_neg hnn, hpc] at heq
    have hrec2 := hrec
    rw [hpc] at hrec2
    simp [hlook, if_pos hoor, hinv, hrec2] at heq
  | case7 p rest fresh hb hnn t hpc tpc hlook hoor inv hinv out1 fst1 f21 hrec ih =>
    intro res rch rf2 heq
    rw [onePass, dif_pos hb, if_neg hnn, hpc] at heq
    have hrec2 := hrec
    rw [hpc] at hrec2
    simp only [hlook, if_pos hoor, hinv, hrec2, Option.some.injEq, Prod.mk.injEq] at heq
    obtain ⟨rfl, rfl, rfl⟩ := heq
    exact Frame.relaxPass (ih _ _ _ hrec) rfl rfl rfl
  | case8 p rest fresh hb hnn t hpc tpc hlook hir hrec ih =>
    intro res rch rf2 heq
    rw [onePass, dif_pos hb, if_neg hnn, hpc] at heq
    simp [hlook, if_neg hir, hrec] at heq
  | case9 p rest fresh hb hnn t hpc tpc hlook hir out1 fst1 f21 hrec ih =>
    intro res rch rf2 heq
    rw [onePass, dif_pos hb, if_neg hnn, hpc] at heq
    simp only [hlook, if_neg hir, hrec, Option.some.injEq, Prod.mk.injEq] at heq
    obtain ⟨rfl, rfl, rfl⟩ := heq
    exact Frame.consPass (ih _ _ _ hrec)
  | case10 p rest fresh hb hj hpc =>
    intro res rch rf2 heq
    rw [onePass, dif_neg hb, dif_pos hj, hpc] at heq
    simp at heq
  | case11 p rest fresh hb hj t hpc hlook =>
    intro res rch rf2 heq
    rw [onePass, dif_neg hb, dif_pos hj, hpc] at heq
    simp [hlook] at heq
  | case12 p rest fresh hb hj t hpc tpc hlook hoor hrec ih =>
    intro res rch rf2 heq
    rw [onePass, dif_neg hb, dif_pos hj, hpc] at heq
    simp only [hlook] at heq
    rw [if_pos hoor] at heq
    simp [hrec] at heq
  | case13 p rest fresh hb hj t hpc tpc hlook hoor out1 fst1 f21 hrec ih =>
    intro res rch rf2 heq
    rw [onePass, dif_neg hb, dif_pos hj, hpc] at heq
    simp only [hlook] at heq
    rw [if_pos hoor] at heq
    simp only [hrec, Option.some.injEq, Prod.mk.injEq] at heq
    obtain ⟨rfl, rfl, rfl⟩ := heq
    exact Frame.relaxPass (ih _ _ _ hrec) rfl rfl rfl
  | case14 p rest fresh hb hj t hpc tpc hlook hir hrec ih =>
    intro res rch rf2 heq
    rw [onePass, dif_neg hb, dif_pos hj, hpc] at heq
    simp only [hlook] at heq
    rw [if_neg hir] at heq
    simp [hrec] at heq
  | case15 p rest fresh hb hj t hpc tpc hlook hir out1 fst1 f21 hrec ih =>
    intro res rch rf2 heq
    rw [onePass, dif_neg hb, dif_pos hj, hpc] at heq
    simp only [hlook] at heq
    rw [if_neg hir] at heq
    simp only [hrec, Option.some.injEq, Prod.mk.injEq] at heq
    obtain ⟨rfl, rfl, rfl⟩ := heq
    exact Frame.consPass (ih _ _ _ hrec)
  | case16 p rest fresh hb hj hrec ih =>
    intro res rch rf2 heq
    rw [onePass, dif_neg hb, dif_neg hj] at heq
    simp [hrec] at heq
  | case17 p rest fresh hb hj out1 fst1 f21 hrec ih =>
    intro res rch rf2 heq
    rw [onePass, dif_neg hb, dif_neg hj] at heq
    simp only [hrec, Option.some.injEq, Prod.mk.injEq] at heq
    obtain ⟨rfl, rfl, rfl⟩ := heq
    exact Frame.consPass (ih _ _ _ hrec)

lemma mw_cons (p : Prog) (rest : List Prog) :
    mw (p :: rest) =
      (if isCondBranch p.pAs = true then (if shapedAt p rest = true then 0 else 3)
       else if p.pAs = .AJAL then 1 else 0) + mw rest := rfl

lemma mw_cons_w {x : Prog} {rest : List Prog} (h1 : isCondBranch x.pAs = false)
    (h2 : x.pAs ≠ .AJAL) : mw (x :: rest) = mw rest := by
  rw [mw_cons, if_neg (by simp [h1]), if_neg h2, zero_add]

lemma mw_cons_jal {x : Prog} {rest : List Prog} (h : x.pAs = .AJAL) :
    mw (x :: rest) = 1 + mw rest := by
  rw [mw_cons, if_neg (by simp [h, isCondBranch]), if_pos h]

lemma mw_cons_shaped {x : Prog} {rest : List Prog} (h1 : isCondBranch x.pAs = true)
    (h2 : shapedAt x rest = true) : mw (x :: rest) = mw rest := by
  rw [mw_cons, if_pos h1, if_pos h2, zero_add]

lemma mw_cons_unshaped {x : Prog} {rest : List Prog} (h1 : isCondBranch x.pAs = true)
    (h2 : shapedAt x rest = false) : mw (x :: rest) = 3 + mw rest := by
  rw [mw_cons, if_pos h1, if_neg (by simp [h2])]

lemma bool_eq_false {b : Bool} (h : ¬b = true) : b = false := by
  cases b
  · rfl
  · exact absurd rfl h

lemma isCondBranch_InvertBranch {a b : As} (h : InvertBranch a = some b) :
    isCondBranch b = true := by
  cases a <;> simp [InvertBranch] at h <;> simp [← h, isCondBranch]

lemma shapedAt_cons_cons_iff (q j k : Prog) (rest : List Prog) :
    shapedAt q (j :: k :: rest) = true ↔
      (j.pAs = .AJAL ∧ q.pPcond = some k.pId) ∨
      (∃ r rest3, rest = r :: rest3 ∧ j.pAs = .AAUIPC ∧ k.pAs = .AJALR ∧
        q.pPcond = some r.pId) := by
  cases rest with
  | nil =>
    simp [shapedAt, Bool.or_eq_true, Bool.and_eq_true, beq_iff_eq]
  | cons r rest3 =>
    simp only [shapedAt, Bool.or_eq_true, Bool.and_eq_true, beq_iff_eq]
    constructor
    · rintro (h | h)
      · exact Or.inl h
      · exact Or.inr ⟨r, rest3, rfl, h.1.1, h.1.2, h.2⟩
    · rintro (h | ⟨r2, rest4, he, h1, h2, h3⟩)
      · exact Or.inl h
      · obtain ⟨rfl, rfl⟩ : r2 = r ∧ rest4 = rest3 := by
          constructor
          · exact ((List.cons_eq_cons.mp he.symm).1)
          · exact ((List.cons_eq_cons.mp he.symm).2)
        exact Or.inr ⟨⟨h1, h2⟩, h3⟩

lemma shapedAt_cons_elim {q p : Prog} {rest : List Prog}
    (h : shapedAt q (p :: rest) = true) : p.pAs = .AJAL ∨ p.pAs = .AAUIPC := by
  cases rest with
  | nil => simp [shapedAt] at h
  | cons k rest2 =>
    rcases (shapedAt_cons_cons_iff q p k rest2).mp h with h1 | ⟨r, r3, _, h1, _, _⟩
    · exact Or.inl h1.1
    · exact Or.inr h1

lemma rest_ne_nil_of_branch {p : Prog} {rest : List Prog}
    (hb : isCondBranch p.pAs = true) (hl : lastNotBranch (p :: rest) = true) :
    rest ≠ [] := by
  intro h
  subst h
  simp [lastNotBranch, hb] at hl

lemma lastNotBranch_swap {p x : Prog} {s : List Prog}
    (hx : isCondBranch x.pAs = false) (h : lastNotBranch (p :: s) = true) :
    lastNotBranch (x :: s) = true := by
  cases s with
  | nil => simp [lastNotBranch, hx]
  | cons k r => rw [lastNotBranch_cons_cons] at h ⊢; exact h

lemma Pre_tail {snap : List Prog} {p : Prog} {rest : List Prog} {fresh : Nat}
    (h : Pre snap (p :: rest) fresh) : Pre snap rest fresh := by
  obtain ⟨hF, hN, hL, hS⟩ := h
  refine ⟨fun i hi => hF i (by simp [idsOf_cons, hi]), ?_, ?_, ?_⟩
  · exact (List.nodup_cons.mp (by rw [idsOf_cons] at hN; exact hN)).2
  · cases rest with
    | nil => rfl
    | cons k r => rw [lastNotBranch_cons_cons] at hL; exact hL
  · left
    rcases hS with hS | ⟨x, s, he, hs, -⟩
    · exact (List.suffix_cons p rest).trans hS
    · have : rest = s := (List.cons_eq_cons.mp he).2
      exact this ▸ hs

lemma Pre_cons_new {snap : List Prog} {x : Prog} {s : List Prog} {fresh : Nat}
    (hxid : x.pId = fresh)
    (hxc : x.pAs = .AJALR ∨ (x.pAs = .AJAL ∧ pcondOkB snap x = true))
    (hs : s <:+ snap) (hF : ∀ i ∈ idsOf s, i < fresh)
    (hNs : (idsOf s).Nodup) (hlast : lastNotBranch (x :: s) = true) :
    Pre snap (x :: s) (fresh + 1) := by
  refine ⟨?_, ?_, hlast, Or.inr ⟨x, s, rfl, hs, hxc⟩⟩
  · intro i hi
    rw [idsOf_cons, hxid] at hi
    rcases List.mem_cons.mp hi with rfl | hi2
    · omega
    · have := hF i hi2
      omega
  · rw [idsOf_cons, hxid]
    refine List.nodup_cons.mpr ⟨?_, hNs⟩
    intro hmem
    have := hF fresh hmem
    omega

lemma suffix_of_Pre_branch {snap : List Prog} {p : Prog} {rest : List Prog} {fresh : Nat}
    (h : Pre snap (p :: rest) fresh) (hb : isCondBranch p.pAs = true) :
    (p :: rest) <:+ snap := by
  rcases h.2.2.2 with hS | ⟨x, s, he, -, hxc⟩
  · exact hS
  · exfalso
    have hpx : p = x := (List.cons_eq_cons.mp he).1
    rcases hxc with h1 | ⟨h1, -⟩ <;> rw [← hpx] at h1 <;> rw [h1] at hb <;>
      simp [isCondBranch] at hb

lemma disp_eq {snap : List Prog} {p : Prog} {t : Nat} {tpc : Int}
    (hpc : p.pPcond = some t) (hlook : lookPc snap t = some tpc) :
    disp snap p = some (tpc - p.pPc) := by
  simp [disp, hpc, hlook]

lemma onePass_peek_other {snap : List Prog} {x : Prog} {rest res : List Prog}
    {f rf2 : Nat} {rch : Bool}
    (heq : onePass snap (x :: rest) f = some (res, rch, rf2))
    (h1 : isCondBranch x.pAs = false) (h2 : x.pAs ≠ .AJAL) :
    ∃ out2, res = x :: out2 ∧ onePass snap rest f = some (out2, rch, rf2) := by
  rw [onePass, dif_neg (by simp [h1]), dif_neg h2] at heq
  cases hrec : onePass snap rest f with
  | none => rw [hrec] at heq; simp at heq
  | some v =>
    obtain ⟨out2, ch2, f22⟩ := v
    rw [hrec] at heq
    simp only [Option.some.injEq, Prod.mk.injEq] at heq
    obtain ⟨rfl, rfl, rfl⟩ := heq
    exact ⟨out2, rfl, rfl⟩

lemma onePass_peek_jal {snap : List Prog} {x : Prog} {rest res : List Prog}
    {f rf2 : Nat} {rch : Bool} {t : Nat} {tpc : Int}
    (heq : onePass snap (x :: rest) f = some (res, rch, rf2))
    (hx : x.pAs = .AJAL) (hpc : x.pPcond = some t)
    (hlook : lookPc snap t = some tpc) :
    (¬(tpc - x.pPc < -(2 ^ 20) ∨ 2 ^ 20 ≤ tpc - x.pPc) ∧
      ∃ out2, res = x :: out2 ∧ onePass snap rest f = some (out2, rch, rf2)) ∨
    ((tpc - x.pPc < -(2 ^ 20) ∨ 2 ^ 20 ≤ tpc - x.pPc) ∧
      ∃ a b out2 ch2, res = a :: b :: out2 ∧ a.pAs = .AAUIPC ∧ b.pAs = .AJALR ∧
      rch = true ∧ onePass snap rest (f + 1) = some (out2, ch2, rf2)) := by
  rw [onePass, dif_neg (show ¬isCondBranch x.pAs = true by simp [hx, isCondBranch]),
    dif_pos hx, hpc] at heq
  simp only [hlook] at heq
  by_cases hoor : tpc - x.pPc < -(2 ^ 20) ∨ 2 ^ 20 ≤ tpc - x.pPc
  · rw [if_pos hoor] at heq
    cases hrec : onePass snap
        ({ pId := f, pAs := .AJALR, pFrom := { typ := .TYPE_CONST, offset := 0 },
           pTo := x.pFrom, pFrom3 := { typ := .TYPE_REG, reg := REG_TMP } } :: rest)
        (f + 1) with
    | none => rw [hrec] at heq; simp at heq
    | some v =>
      obtain ⟨o1, c1, f1⟩ := v
      rw [hrec] at heq
      simp only [Option.some.injEq, Prod.mk.injEq] at heq
      obtain ⟨rfl, rfl, rfl⟩ := heq
      obtain ⟨out2, rfl, hrec2⟩ := onePass_peek_other hrec (by simp [isCondBranch])
        (fun h => As.noConfusion h)
      exact Or.inr ⟨hoor, _, _, out2, c1, rfl, rfl, rfl, rfl, hrec2⟩
  · rw [if_neg hoor] at heq
    cases hrec : onePass snap rest f with
    | none => rw [hrec] at heq; simp at heq
    | some v =>
      obtain ⟨out2, ch2, f22⟩ := v
      rw [hrec] at heq
      simp only [Option.some.injEq, Prod.mk.injEq] at heq
      obtain ⟨rfl, rfl, rfl⟩ := heq
      exact Or.inl ⟨hoor, out2, rfl, rfl⟩

lemma head_id_cons {out : List Prog} {k : Prog}
    (h : out.head?.map Prog.pId = some k.pId) :
    ∃ k2 out3, out = k2 :: out3 ∧ k2.pId = k.pId := by
  cases out with
  | nil => simp at h
  | cons a o => exact ⟨a, o, rfl, by simpa using h⟩

lemma tail_suffix_of_Pre {snap : List Prog} {p : Prog} {rest : List Prog} {fresh : Nat}
    (h : Pre snap (p :: rest) fresh) : rest <:+ snap := by
  rcases h.2.2.2 with hS | ⟨x, s, he, hs, -⟩
  · exact (List.suffix_cons p rest).trans hS
  · exact ((List.cons_eq_cons.mp he).2) ▸ hs

lemma jal_pcondOk_of_Pre {snap : List Prog} {p : Prog} {rest : List Prog} {fresh : Nat}
    (hWF : branchWFa snap snap = true) (hpre : Pre snap (p :: rest) fresh)
    (hj : p.pAs = .AJAL) : pcondOkB snap p = true := by
  rcases hpre.2.2.2 with hS | ⟨x, s, he, -, hxc⟩
  · exact (branchWFa_mem hWF (hS.subset (by simp))).2 hj
  · have hpx : p = x := (List.cons_eq_cons.mp he).1
    rcases hxc with h1 | ⟨-, hok⟩
    · rw [← hpx, hj] at h1
      simp at h1
    · exact hpx ▸ hok

/-- Functional-correctness core of a single relaxation scan: under the
well-formedness invariant the scan never panics, it preserves the relaxed
shapes already present, it never increases the loop measure `mw` and strictly
decreases it whenever it relaxed something, a scan that changed nothing
certifies that every branch and jump displacement is in range, and every
branch or jump of the output still targets a prog of the snapshot. -/
def Post2 (snap l res : List Prog) (rch : Bool) : Prop :=
  (∀ q, shapedAt q l = true → shapedAt q res = true) ∧
  mw res ≤ mw l ∧
  (rch = true → mw res < mw l) ∧
  (rch = false → ∀ p ∈ l, inRangeAt snap p) ∧
  targetsOk snap res

lemma onePass_spec (snap : List Prog) (hfix : setpcs 0 snap = snap)
    (hN : (idsOf snap).Nodup) (hWF : branchWFa snap snap = true) :
    ∀ l fresh, Pre snap l fresh →
      ∃ res rch rf2, onePass snap l fresh = some (res, rch, rf2) ∧
        Post2 snap l res rch := by
  intro l fresh
  induction l, fresh using onePass.induct snap with
  | case1 fresh =>
    intro _
    refine ⟨[], false, fresh, by rw [onePass], ?_, le_refl _, ?_, ?_, ?_⟩
    · exact fun q hq => hq
    · intro h; simp at h
    · intro _ p hp; cases hp
    · intro p hp; cases hp
  | case2 p rest fresh hb hne =>
    intro hpre
    exfalso
    have hmem : p ∈ snap := (suffix_of_Pre_branch hpre hb).subset (by simp)
    exact hne ((branchWFa_mem hWF hmem).1 hb).1
  | case3 p rest fresh hb hnn hpc =>
    intro hpre
    exfalso
    have hmem : p ∈ snap := (suffix_of_Pre_branch hpre hb).subset (by simp)
    rcases pcondOkB_iff.mp ((branchWFa_mem hWF hmem).1 hb).2 with ⟨t, ht, -⟩
    rw [hpc] at ht
    cases ht
  | case4 p rest fresh hb hnn t hpc hlook =>
    intro hpre
    exfalso
    have hmem : p ∈ snap := (suffix_of_Pre_branch hpre hb).subset (by simp)
    rcases pcondOkB_iff.mp ((branchWFa_mem hWF hmem).1 hb).2 with ⟨t2, ht2, htin⟩
    rw [hpc] at ht2
    obtain rfl : t2 = t := by cases ht2; rfl
    rcases lookPc_some_of_mem_ids htin with ⟨c, hc⟩
    rw [hc] at hlook
    cases hlook
  | case5 p rest fresh hb hnn t hpc tpc hlook hoor hinv =>
    intro hpre
    exfalso
    rcases InvertBranch_of_isCondBranch hb with ⟨b, hbeq, -⟩
    rw [hinv] at hbeq
    cases hbeq
  | case6 p rest fresh hb hnn t hpc tpc hlook hoor inv hinv hrec ih =>
    intro hpre
    exfalso
    have hsuf := suffix_of_Pre_branch hpre hb
    have hmem : p ∈ snap := hsuf.subset (by simp)
    rcases ih (Pre_cons_new rfl
      (Or.inr ⟨rfl, ((branchWFa_mem hWF hmem).1 hb).2⟩)
      (tail_suffix_of_Pre hpre)
      (Pre_tail hpre).1 (Pre_tail hpre).2.1
      (lastNotBranch_swap (by simp [isCondBranch]) hpre.2.2.1)) with ⟨res1, rch1, rf1, heq1, -⟩
    rw [hrec] at heq1
    cases heq1
  | case7 p rest fresh hb hnn t hpc tpc hlook hoor inv hinv out1 fst1 f21 hrec ih =>
    intro hpre
    have hsuf := suffix_of_Pre_branch hpre hb
    have hmem : p ∈ snap := hsuf.subset (by simp)
    have hrestne : rest ≠ [] := rest_ne_nil_of_branch hb hpre.2.2.1
    obtain ⟨k, rest2, rfl⟩ := List.exists_cons_of_ne_nil hrestne
    rcases ih (Pre_cons_new rfl
      (Or.inr ⟨rfl, ((branchWFa_mem hWF hmem).1 hb).2⟩)
      (tail_suffix_of_Pre hpre)
      (Pre_tail hpre).1 (Pre_tail hpre).2.1
      (lastNotBranch_swap (by simp [isCondBranch]) hpre.2.2.1)) with ⟨res1, rch1, rf1, heq1, hpost1⟩
    rw [hrec] at heq1
    obtain ⟨rfl, rfl, rfl⟩ : res1 = out1 ∧ rch1 = fst1 ∧ rf1 = f21 := by
      simp only [Option.some.injEq, Prod.mk.injEq] at heq1
      exact ⟨heq1.1.symm, heq1.2.1.symm, heq1.2.2.symm⟩
    obtain ⟨hsh1, hle1, hlt1, hir1, htg1⟩ := hpost1
    have heqn : onePass snap (p :: k :: rest2) fresh =
        some ({ p with pAs := inv, pPcond := some k.pId } :: res1, true, rf1) := by
      rw [onePass, dif_pos hb, if_neg hnn, hpc]
      simp only [hlook, hinv]
      rw [if_pos hoor]
      have hrec2 := hrec
      rw [hpc] at hrec2
      rw [hrec2]
      rfl
    have hnsh : shapedAt p (k :: rest2) = false := by
      cases hshv : shapedAt p (k :: rest2) with
      | false => rfl
      | true =>
        exfalso
        rcases shaped_disp hfix hN hsuf hb hshv with ⟨t2, tpc2, hpc2, hlook2, hd⟩
        rw [hpc] at hpc2
        obtain rfl : t2 = t := by cases hpc2; rfl
        rw [hlook] at hlook2
        obtain rfl : tpc2 = tpc := by cases hlook2; rfl
        rcases hoor with h | h <;> rcases hd with h2 | h2 <;> omega
    -- the inverted branch is in relaxed shape with respect to the output tail
    have hshI : shapedAt { p with pAs := inv, pPcond := some k.pId } res1 = true := by
      rcases onePass_peek_jal hrec rfl hpc hlook with
        ⟨-, out2, rfl, hreq⟩ | ⟨-, a, b, out2, ch2, rfl, ha, hbj, -, hreq⟩
      · have hh := (onePass_frame snap _ _ _ _ _ hreq).1
        have hh2 : out2.head?.map Prog.pId = some k.pId := by simpa using hh
        obtain ⟨k2, out3, rfl, hk2⟩ := head_id_cons hh2
        rw [shapedAt_cons_cons_iff]
        exact Or.inl ⟨rfl, by simp [hk2]⟩
      · have hh := (onePass_frame snap _ _ _ _ _ hreq).1
        have hh2 : out2.head?.map Prog.pId = some k.pId := by simpa using hh
        obtain ⟨k2, out3, rfl, hk2⟩ := head_id_cons hh2
        rw [shapedAt_cons_cons_iff]
        exact Or.inr ⟨k2, out3, rfl, ha, hbj, by simp [hk2]⟩
    have hmwjmp : mw
        ({ pId := fresh, pAs := As.AJAL,
             pFrom := { typ := AType.TYPE_REG, reg := REG_ZERO, offset := 0,
                          name := AName.NAME_NONE, sym := none },
             pReg := 0,
             pFrom3 := { typ := AType.TYPE_NONE, reg := 0, offset := 0,
                           name := AName.NAME_NONE, sym := none },
             pTo := { typ := AType.TYPE_BRANCH, reg := 0, offset := 0,
                        name := AName.NAME_NONE, sym := none },
             pPcond := p.pPcond, pPc := 0, pSpadj := 0, markI := false,
             markS := false } :: k :: rest2) = 1 + mw (k :: rest2) := mw_cons_jal rfl
    have hmwl : mw (p :: k :: rest2) = 3 + mw (k :: rest2) :=
      mw_cons_unshaped hb hnsh
    have hbI : isCondBranch inv = true := isCondBranch_InvertBranch hinv
    have hmwr : mw ({ p with pAs := inv, pPcond := some k.pId } :: res1) = mw res1 :=
      mw_cons_shaped hbI hshI
    refine ⟨_, true, rf1, heqn, ?_, ?_, ?_, ?_, ?_⟩
    · intro q hq
      rcases shapedAt_cons_elim hq with h1 | h1 <;> rw [h1] at hb <;> simp [isCondBranch] at hb
    · rw [hmwr, hmwl]
      rw [hmwjmp] at hle1
      omega
    · intro _
      rw [hmwr, hmwl]
      rw [hmwjmp] at hle1
      omega
    · intro h
      simp at h
    · intro p2 hp2
      rcases List.mem_cons.mp hp2 with rfl | hp3
      · constructor
        · intro _
          refine ⟨not_not.mp hnn, pcondOkB_iff.mpr ⟨k.pId, rfl, ?_⟩⟩
          exact List.mem_map.mpr ⟨k, hsuf.subset (by simp), rfl⟩
        · intro hj2
          exact absurd hj2 (isCondBranch_ne_AJAL (isCondBranch_InvertBranch hinv))
      · exact htg1 p2 hp3
  | case8 p rest fresh hb hnn t hpc tpc hlook hir hrec ih =>
    intro hpre
    exfalso
    rcases ih (Pre_tail hpre) with ⟨res1, rch1, rf1, heq1, -⟩
    rw [hrec] at heq1
    cases heq1
  | case9 p rest fresh hb hnn t hpc tpc hlook hir out1 fst1 f21 hrec ih =>
    intro hpre
    have hsuf := suffix_of_Pre_branch hpre hb
    rcases ih (Pre_tail hpre) with ⟨res1, rch1, rf1, heq1, hpost1⟩
    rw [hrec] at heq1
    obtain ⟨rfl, rfl, rfl⟩ : res1 = out1 ∧ rch1 = fst1 ∧ rf1 = f21 := by
      simp only [Option.some.injEq, Prod.mk.injEq] at heq1
      exact ⟨heq1.1.symm, heq1.2.1.symm, heq1.2.2.symm⟩
    obtain ⟨hsh1, hle1, hlt1, hir1, htg1⟩ := hpost1
    have heqn : onePass snap (p :: rest) fresh = some (p :: res1, rch1, rf1) := by
      rw [onePass, dif_pos hb, if_neg hnn, hpc]
      simp only [hlook]
      rw [if_neg hir, hrec]
    refine ⟨_, rch1, rf1, heqn, ?_, ?_, ?_, ?_, ?_⟩
    · intro q hq
      rcases shapedAt_cons_elim hq with h1 | h1 <;> rw [h1] at hb <;> simp [isCondBranch] at hb
    · cases hshv : shapedAt p rest with
      | true =>
        have e1 : mw (p :: rest) = mw rest := mw_cons_shaped hb hshv
        have e2 : mw (p :: res1) = mw res1 := mw_cons_shaped hb (hsh1 p hshv)
        rw [e1, e2]
        exact hle1
      | false =>
        have e1 : mw (p :: rest) = 3 + mw rest := mw_cons_unshaped hb hshv
        cases hshv2 : shapedAt p res1 with
        | true =>
          have e2 : mw (p :: res1) = mw res1 := mw_cons_shaped hb hshv2
          rw [e1, e2]
          omega
        | false =>
          have e2 : mw (p :: res1) = 3 + mw res1 := mw_cons_unshaped hb hshv2
          rw [e1, e2]
          omega
    · intro hch
      have hlt := hlt1 hch
      cases hshv : shapedAt p rest with
      | true =>
        have e1 : mw (p :: rest) = mw rest := mw_cons_shaped hb hshv
        have e2 : mw (p :: res1) = mw res1 := mw_cons_shaped hb (hsh1 p hshv)
        rw [e1, e2]
        exact hlt
      | false =>
        have e1 : mw (p :: rest) = 3 + mw rest := mw_cons_unshaped hb hshv
        cases hshv2 : shapedAt p res1 with
        | true =>
          have e2 : mw (p :: res1) = mw res1 := mw_cons_shaped hb hshv2
          rw [e1, e2]
          omega
        | false =>
          have e2 : mw (p :: res1) = 3 + mw res1 := mw_cons_unshaped hb hshv2
          rw [e1, e2]
          omega
    · intro hch p2 hp2
      rcases List.mem_cons.mp hp2 with rfl | hp3
      · constructor
        · intro _
          refine ⟨tpc - p2.pPc, disp_eq hpc hlook, ?_⟩
          rw [not_or] at hir
          omega
        · intro hj2
          exact absurd hj2 (isCondBranch_ne_AJAL hb)
      · exact hir1 hch p2 hp3
    · intro p2 hp2
      rcases List.mem_cons.mp hp2 with rfl | hp3
      · refine ⟨fun _ => ⟨not_not.mp hnn, pcondOkB_iff.mpr ⟨t, hpc, mem_ids_of_lookPc hlook⟩⟩,
          fun hj2 => absurd hj2 (isCondBranch_ne_AJAL hb)⟩
      · exact htg1 p2 hp3
  | case10 p rest fresh hb hj hpc =>
    intro hpre
    exfalso
    rcases pcondOkB_iff.mp (jal_pcondOk_of_Pre hWF hpre hj) with ⟨t, ht, -⟩
    rw [hpc] at ht
    cases ht
  | case11 p rest fresh hb hj t hpc hlook =>
    intro hpre
    exfalso
    rcases pcondOkB_iff.mp (jal_pcondOk_of_Pre hWF hpre hj) with ⟨t2, ht2, htin⟩
    rw [hpc] at ht2
    obtain rfl : t2 = t := by cases ht2; rfl
    rcases lookPc_some_of_mem_ids htin with ⟨c, hc⟩
    rw [hc] at hlook
    cases hlook
  | case12 p rest fresh hb hj t hpc tpc hlook hoor hrec ih =>
    intro hpre
    exfalso
    rcases ih (Pre_cons_new rfl (Or.inl rfl)
      (tail_suffix_of_Pre hpre)
      (Pre_tail hpre).1 (Pre_tail hpre).2.1
      (lastNotBranch_swap (by simp [isCondBranch]) hpre.2.2.1)) with ⟨res1, rch1, rf1, heq1, -⟩
    rw [hrec] at heq1
    cases heq1
  | case13 p rest fresh hb hj t hpc tpc hlook hoor out1 fst1 f21 hrec ih =>
    intro hpre
    rcases ih (Pre_cons_new rfl (Or.inl rfl)
      (tail_suffix_of_Pre hpre)
      (Pre_tail hpre).1 (Pre_tail hpre).2.1
      (lastNotBranch_swap (by simp [isCondBranch]) hpre.2.2.1)) with ⟨res1, rch1, rf1, heq1, hpost1⟩
    rw [hrec] at heq1
    obtain ⟨rfl, rfl, rfl⟩ : res1 = out1 ∧ rch1 = fst1 ∧ rf1 = f21 := by
      simp only [Option.some.injEq, Prod.mk.injEq] at heq1
      exact ⟨heq1.1.symm, heq1.2.1.symm, heq1.2.2.symm⟩
    obtain ⟨hsh1, hle1, hlt1, hir1, htg1⟩ := hpost1
    have heqn : onePass snap (p :: rest) fresh =
        some ({ p with
            pAs := .AAUIPC, pFrom := { typ := .TYPE_BRANCH }, pFrom3 := {},
            pTo := { typ := .TYPE_REG, reg := REG_TMP } } :: res1, true, rf1) := by
      rw [onePass, dif_neg hb, dif_pos hj, hpc]
      simp only [hlook]
      rw [if_pos hoor, hrec]
    have hmwjalr : mw
        ({ pId := fresh, pAs := As.AJALR,
             pFrom := { typ := AType.TYPE_CONST, reg := 0, offset := 0,
                          name := AName.NAME_NONE, sym := none },
             pReg := 0,
             pFrom3 := { typ := AType.TYPE_REG, reg := REG_TMP, offset := 0,
                           name := AName.NAME_NONE, sym := none },
             pTo := p.pFrom, pPcond := none, pPc := 0, pSpadj := 0, markI := false,
             markS := false } :: rest) = mw rest :=
      mw_cons_w rfl (fun h => As.noConfusion h)
    have hmwl : mw (p :: rest) = 1 + mw rest := mw_cons_jal hj
    have hmwr : mw ({ p with
        pAs := .AAUIPC, pFrom := { typ := .TYPE_BRANCH }, pFrom3 := {},
        pTo := { typ := .TYPE_REG, reg := REG_TMP } } :: res1) = mw res1 :=
      mw_cons_w rfl (fun h => As.noConfusion h)
    refine ⟨_, true, rf1, heqn, ?_, ?_, ?_, ?_, ?_⟩
    · intro q hq
      cases rest with
      | nil => simp [shapedAt] at hq
      | cons k rest2 =>
        rcases (shapedAt_cons_cons_iff q p k rest2).mp hq with ⟨-, hqk⟩ | ⟨r, r3, -, hpau, -, -⟩
        · obtain ⟨out2, rfl, hreq⟩ :=
            onePass_peek_other hrec (by simp [isCondBranch])
              (fun h => As.noConfusion h)
          have hh := (onePass_frame snap _ _ _ _ _ hreq).1
          have hh2 : out2.head?.map Prog.pId = some k.pId := by simpa using hh
          obtain ⟨k2, out3, rfl, hk2⟩ := head_id_cons hh2
          rw [shapedAt_cons_cons_iff]
          exact Or.inr ⟨k2, out3, rfl, rfl, rfl, by simp [hqk, hk2]⟩
        · rw [hpau] at hj
          cases hj
    · rw [hmwr, hmwl]
      rw [hmwjalr] at hle1
      omega
    · intro _
      rw [hmwr, hmwl]
      rw [hmwjalr] at hle1
      omega
    · intro h
      simp at h
    · intro p2 hp2
      rcases List.mem_cons.mp hp2 with rfl | hp3
      · constructor
        · intro h
          simp [isCondBranch] at h
        · intro h
          simp at h
      · exact htg1 p2 hp3
  | case14 p rest fresh hb hj t hpc tpc hlook hir hrec ih =>
    intro hpre
    exfalso
    rcases ih (Pre_tail hpre) with ⟨res1, rch1, rf1, heq1, -⟩
    rw [hrec] at heq1
    cases heq1
  | case15 p rest fresh hb hj t hpc tpc hlook hir out1 fst1 f21 hrec ih =>
    intro hpre
    rcases ih (Pre_tail hpre) with ⟨res1, rch1, rf1, heq1, hpost1⟩
    rw [hrec] at heq1
    obtain ⟨rfl, rfl, rfl⟩ : res1 = out1 ∧ rch1 = fst1 ∧ rf1 = f21 := by
      simp only [Option.some.injEq, Prod.mk.injEq] at heq1
      exact ⟨heq1.1.symm, heq1.2.1.symm, heq1.2.2.symm⟩
    obtain ⟨hsh1, hle1, hlt1, hir1, htg1⟩ := hpost1
    have heqn : onePass snap (p :: rest) fresh = some (p :: res1, rch1, rf1) := by
      rw [onePass, dif_neg hb, dif_pos hj, hpc]
      simp only [hlook]
      rw [if_neg hir, hrec]
    refine ⟨_, rch1, rf1, heqn, ?_, ?_, ?_, ?_, ?_⟩
    · intro q hq
      cases rest with
      | nil => simp [shapedAt] at hq
      | cons k rest2 =>
        rcases (shapedAt_cons_cons_iff q p k rest2).mp hq with ⟨-, hqk⟩ | ⟨r, r3, -, hpau, -, -⟩
        · have hh := (onePass_frame snap _ _ _ _ _ hrec).1
          have hh2 : res1.head?.map Prog.pId = some k.pId := by simpa using hh
          obtain ⟨k2, out3, rfl, hk2⟩ := head_id_cons hh2
          rw [shapedAt_cons_cons_iff]
          exact Or.inl ⟨hj, by simp [hqk, hk2]⟩
        · rw [hpau] at hj
          cases hj
    · have e1 : mw (p :: rest) = 1 + mw rest := mw_cons_jal hj
      have e2 : mw (p :: res1) = 1 + mw res1 := mw_cons_jal hj
      rw [e1, e2]
      omega
    · intro hch
      have hlt := hlt1 hch
      have e1 : mw (p :: rest) = 1 + mw rest := mw_cons_jal hj
      have e2 : mw (p :: res1) = 1 + mw res1 := mw_cons_jal hj
      rw [e1, e2]
      omega
    · intro hch p2 hp2
      rcases List.mem_cons.mp hp2 with rfl | hp3
      · constructor
        · intro hbr
          exact absurd hbr hb
        · intro _
          refine ⟨tpc - p2.pPc, disp_eq hpc hlook, ?_⟩
          rw [not_or] at hir
          omega
      · exact hir1 hch p2 hp3
    · intro p2 hp2
      rcases List.mem_cons.mp hp2 with rfl | hp3
      · exact ⟨fun hbr => absurd hbr hb,
          fun _ => pcondOkB_iff.mpr ⟨t, hpc, mem_ids_of_lookPc hlook⟩⟩
      · exact htg1 p2 hp3
  | case16 p rest fresh hb hj hrec ih =>
    intro hpre
    exfalso
    rcases ih (Pre_tail hpre) with ⟨res1, rch1, rf1, heq1, -⟩
    rw [hrec] at heq1
    cases heq1
  | case17 p rest fresh hb hj out1 fst1 f21 hrec ih =>
    intro hpre
    rcases ih (Pre_tail hpre) with ⟨res1, rch1, rf1, heq1, hpost1⟩
    rw [hrec] at heq1
    obtain ⟨rfl, rfl, rfl⟩ : res1 = out1 ∧ rch1 = fst1 ∧ rf1 = f21 := by
      simp only [Option.some.injEq, Prod.mk.injEq] at heq1
      exact ⟨heq1.1.symm, heq1.2.1.symm, heq1.2.2.symm⟩
    obtain ⟨hsh1, hle1, hlt1, hir1, htg1⟩ := hpost1
    have heqn : onePass snap (p :: rest) fresh = some (p :: res1, rch1, rf1) := by
      rw [onePass, dif_neg hb, dif_neg hj, hrec]
    refine ⟨_, rch1, rf1, heqn, ?_, ?_, ?_, ?_, ?_⟩
    · intro q hq
      cases rest with
      | nil => simp [shapedAt] at hq
      | cons k rest2 =>
        rcases (shapedAt_cons_cons_iff q p k rest2).mp hq with ⟨hpj, -⟩ | h2
        · exact absurd hpj hj
        · obtain ⟨r, rest3, rfl, hpau, hkj, hqr⟩ := h2
          obtain ⟨out2, rfl, hreq⟩ :=
            onePass_peek_other hrec (by simp [hkj, isCondBranch])
              (by intro h; rw [hkj] at h; exact As.noConfusion h)
          have hh := (onePass_frame snap _ _ _ _ _ hreq).1
          have hh2 : out2.head?.map Prog.pId = some r.pId := by simpa using hh
          obtain ⟨r2, out3, rfl, hr2⟩ := head_id_cons hh2
          rw [shapedAt_cons_cons_iff]
          exact Or.inr ⟨r2, out3, rfl, hpau, hkj, by simp [hqr, hr2]⟩
    · have e1 : mw (p :: rest) = mw rest := mw_cons_w (bool_eq_false hb) hj
      have e2 : mw (p :: res1) = mw res1 := mw_cons_w (bool_eq_false hb) hj
      rw [e1, e2]
      exact hle1
    · intro hch
      have hlt := hlt1 hch
      have e1 : mw (p :: rest) = mw rest := mw_cons_w (bool_eq_false hb) hj
      have e2 : mw (p :: res1) = mw res1 := mw_cons_w (bool_eq_false hb) hj
      rw [e1, e2]
      exact hlt
    · intro hch p2 hp2
      rcases List.mem_cons.mp hp2 with rfl | hp3
      · exact ⟨fun hbr => absurd hbr hb, fun hj2 => absurd hj2 hj⟩
      · exact hir1 hch p2 hp3
    · intro p2 hp2
      rcases List.mem_cons.mp hp2 with rfl | hp3
      · exact ⟨fun hbr => absurd hbr hb, fun hj2 => absurd hj2 hj⟩
      · exact htg1 p2 hp3

lemma pcondOkB_mono {snap res : List Prog} {p : Prog}
    (hsub : ∀ i, i ∈ idsOf snap → i ∈ idsOf res)
    (h : pcondOkB snap p = true) : pcondOkB res p = true := by
  rcases pcondOkB_iff.mp h with ⟨t, ht, htin⟩
  exact pcondOkB_iff.mpr ⟨t, ht, hsub t htin⟩

lemma branchWFa_intro {snap l : List Prog}
    (h : ∀ p ∈ l,
      (isCondBranch p.pAs = true → p.pTo.typ = .TYPE_BRANCH ∧ pcondOkB snap p = true) ∧
      (p.pAs = .AJAL → pcondOkB snap p = true)) :
    branchWFa snap l = true := by
  rw [branchWFa, List.all_eq_true]
  intro p hp
  obtain ⟨h1, h2⟩ := h p hp
  rw [Bool.and_eq_true, Bool.or_eq_true, Bool.or_eq_true]
  constructor
  · cases hcb : isCondBranch p.pAs with
    | false => exact Or.inl rfl
    | true =>
      obtain ⟨hTo, hok⟩ := h1 hcb
      exact Or.inr (by rw [Bool.and_eq_true, beq_iff_eq]; exact ⟨hTo, hok⟩)
  · cases hja : p.pAs == As.AJAL with
    | false => exact Or.inl rfl
    | true => exact Or.inr (h2 (beq_iff_eq.mp hja))

lemma relaxLoop_conv :
    ∀ (fuel : Nat) (l : List Prog) (fresh : Nat), mw l < fuel →
      (idsOf l).Nodup → branchWF l = true → lastNotBranch l = true →
      (∀ i ∈ idsOf l, i < fresh) →
      ∃ out, relaxLoop fuel l fresh = some (out, true) ∧
        setpcs 0 out = out ∧ ∀ p ∈ out, inRangeAt out p := by
  intro fuel
  induction fuel with
  | zero =>
    intro l fresh h
    omega
  | succ n ihf =>
    intro l fresh hfuel hN hWF hLast hF
    have hfix : setpcs 0 (setpcs 0 l) = setpcs 0 l := setpcs_setpcs 0 l
    have hNs : (idsOf (setpcs 0 l)).Nodup := by rw [idsOf_setpcs]; exact hN
    have hWFs : branchWFa (setpcs 0 l) (setpcs 0 l) = true := by
      rw [branchWFa_setpcs_left, branchWFa_setpcs_right]
      exact hWF
    have hLasts : lastNotBranch (setpcs 0 l) = true := by
      rw [lastNotBranch_setpcs]
      exact hLast
    have hFs : ∀ i ∈ idsOf (setpcs 0 l), i < fresh := by
      intro i hi
      rw [idsOf_setpcs] at hi
      exact hF i hi
    obtain ⟨res, rch, rf2, heq, hpost⟩ :=
      onePass_spec (setpcs 0 l) hfix hNs hWFs (setpcs 0 l) fresh
        ⟨hFs, hNs, hLasts, Or.inl (List.suffix_refl _)⟩
    obtain ⟨hsh, hle, hlt, hinr, htg⟩ := hpost
    have hframe := onePass_frame (setpcs 0 l) (setpcs 0 l) fresh res rch rf2 heq
    obtain ⟨hhd, hfle, hiff, hnoch, hnd, hlastp⟩ := hframe
    cases rch with
    | false =>
      obtain ⟨rfl, rfl⟩ := hnoch rfl
      refine ⟨setpcs 0 l, ?_, hfix, ?_⟩
      · rw [relaxLoop, heq]
        rfl
      · intro p hp
        exact hinr rfl p hp
    | true =>
      have hmrl : mw res < mw l := by
        have := hlt rfl
        rw [mw_setpcs] at this
        exact this
      have hNres : (idsOf res).Nodup := hnd hFs hNs
      have hsub : ∀ i, i ∈ idsOf (setpcs 0 l) → i ∈ idsOf res :=
        fun i hi => (hiff i).mpr (Or.inl hi)
      have hWFres : branchWF res = true := by
        rw [branchWF]
        refine branchWFa_intro (fun p hp => ?_)
        obtain ⟨h1, h2⟩ := htg p hp
        exact ⟨fun hb => ⟨(h1 hb).1, pcondOkB_mono hsub (h1 hb).2⟩,
          fun hj => pcondOkB_mono hsub (h2 hj)⟩
      have hLres : lastNotBranch res = true := hlastp hLasts
      have hFres : ∀ i ∈ idsOf res, i < rf2 := by
        intro i hi
        rcases (hiff i).mp hi with hi2 | hi2
        · have := hFs i hi2
          omega
        · omega
      obtain ⟨out, heq2, hfix2, hinr2⟩ := ihf res rf2 (by omega) hNres hWFres hLres hFres
      refine ⟨out, ?_, hfix2, hinr2⟩
      rw [relaxLoop, heq]
      simpa using heq2

/-- C2: for every well-formed function body handed to the branch/jump
relaxation pass (distinct prog identifiers, every conditional branch carrying
a TYPE_BRANCH destination and a target inside the function, every AJAL
carrying a target inside the function, and no trailing conditional branch),
the iterative fixed-point loop of `preprocess` terminates -- fuel `mw l + 1`
suffices and the loop reports convergence -- and in the resulting function
every conditional-branch displacement (target Pc minus branch Pc) lies in
the 13-bit signed range [-4096, 4096) and every AJAL displacement lies in
the 21-bit signed range [-2^20, 2^20). -/
theorem C2_relaxation_convergence (l : List Prog) (fresh : Nat)
    (hN : (idsOf l).Nodup) (hWF : branchWF l = true)
    (hLast : lastNotBranch l = true) (hF : ∀ i ∈ idsOf l, i < fresh) :
    ∃ out, relaxLoop (mw l + 1) l fresh = some (out, true) ∧
      ∀ p ∈ out,
        (isCondBranch p.pAs = true →
          ∃ d, disp out p = some d ∧ -4096 ≤ d ∧ d < 4096) ∧
        (p.pAs = .AJAL →
          ∃ d, disp out p = some d ∧ -(2 ^ 20) ≤ d ∧ d < 2 ^ 20) := by
  obtain ⟨out, h1, -, h3⟩ :=
    relaxLoop_conv (mw l + 1) l fresh (by omega) hN hWF hLast hF
  exact ⟨out, h1, h3⟩

/-- A two-instruction body: an in-range conditional branch over a final
register-indirect jump. -/
def c2prog : List Prog :=
  [{ pId := 1, pAs := .ABEQ, pTo := { typ := .TYPE_BRANCH }, pPcond := some 2 },
   { pId := 2, pAs := .AJALR }]

/-- Witness: the two-instruction body satisfies every hypothesis of the
convergence theorem. -/
theorem C2_relaxation_convergence_witness :
    ((idsOf c2prog).Nodup ∧ branchWF c2prog = true ∧
      lastNotBranch c2prog = true ∧ (∀ i ∈ idsOf c2prog, i < 3)) ∧
    (∃ out, relaxLoop (mw c2prog + 1) c2prog 3 = some (out, true) ∧
      ∀ p ∈ out,
        (isCondBranch p.pAs = true →
          ∃ d, disp out p = some d ∧ -4096 ≤ d ∧ d < 4096) ∧
        (p.pAs = .AJAL →
          ∃ d, disp out p = some d ∧ -(2 ^ 20) ≤ d ∧ d < 2 ^ 20)) :=
  ⟨⟨by decide, by decide, by decide, by decide⟩,
    C2_relaxation_convergence c2prog 3 (by decide) (by decide) (by decide) (by decide)⟩

lemma branch_relax_step {snap : List Prog} {p : Prog} {rest res : List Prog}
    {fresh rf2 : Nat} {rch : Bool} {t : Nat} {tpc : Int}
    (hb : isCondBranch p.pAs = true) (hTo : p.pTo.typ = .TYPE_BRANCH)
    (hpc : p.pPcond = some t) (hlook : lookPc snap t = some tpc)
    (hoor : tpc - p.pPc < -4096 ∨ 4096 ≤ tpc - p.pPc)
    (hjr : -(2 ^ 20) ≤ tpc ∧ tpc < 2 ^ 20)
    (heq : onePass snap (p :: rest) fresh = some (res, rch, rf2)) :
    ∃ inv out2,
      InvertBranch p.pAs = some inv ∧
      res = { p with pAs := inv, pPcond := rest.head?.map Prog.pId } ::
        { pId := fresh, pAs := .AJAL,
          pFrom := { typ := .TYPE_REG, reg := REG_ZERO },
          pTo := { typ := .TYPE_BRANCH }, pPcond := some t } :: out2 ∧
      rch = true ∧
      out2.head?.map Prog.pId = rest.head?.map Prog.pId := by
  rw [onePass, dif_pos hb, if_neg (fun hcon => hcon hTo), hpc] at heq
  simp only [hlook] at heq
  rw [if_pos hoor] at heq
  rcases InvertBranch_of_isCondBranch hb with ⟨inv, hinv, -⟩
  simp only [hinv] at heq
  cases hrec : onePass snap
      ({ pId := fresh, pAs := .AJAL,
         pFrom := { typ := .TYPE_REG, reg := REG_ZERO },
         pTo := { typ := .TYPE_BRANCH }, pPcond := some t } :: rest) (fresh + 1) with
  | none => rw [hrec] at heq; simp at heq
  | some v =>
    obtain ⟨o1, c1, f1⟩ := v
    rw [hrec] at heq
    simp only [Option.some.injEq, Prod.mk.injEq] at heq
    obtain ⟨rfl, rfl, rfl⟩ := heq
    rcases onePass_peek_jal hrec rfl rfl hlook with
      ⟨-, out2, rfl, hreq⟩ | ⟨hc, -⟩
    · have hh := (onePass_frame snap _ _ _ _ _ hreq).1
      exact ⟨inv, out2, hinv, rfl, rfl, hh⟩
    · exfalso
      simp only at hc
      rcases hjr with ⟨h1, h2⟩
      rcases hc with h3 | h3 <;> omega

/-- What the displacement-resolution loop guarantees per instruction: a
branch or jump whose To operand was TYPE_BRANCH ends up with a TYPE_CONST To
operand holding target Pc minus its own Pc. -/
def resolvedPair (snap : List Prog) (pq : Prog × Prog) : Prop :=
  (isCondBranch pq.1.pAs = true ∨ pq.1.pAs = .AJAL) →
  pq.1.pTo.typ = .TYPE_BRANCH →
  ∃ t tpc, pq.1.pPcond = some t ∧ lookPc snap t = some tpc ∧
    pq.2.pTo = { pq.1.pTo with typ := .TYPE_CONST, offset := tpc - pq.1.pPc }

lemma resolve_spec (snap : List Prog) :
    ∀ l out, resolve snap l = some out →
      out.length = l.length ∧ ∀ pq ∈ l.zip out, resolvedPair snap pq := by
  intro l
  induction l using resolve.induct snap with
  | case1 =>
    intro out heq
    rw [resolve] at heq
    simp only [Option.some.injEq] at heq
    subst heq
    exact ⟨rfl, fun pq hpq => absurd hpq (List.not_mem_nil pq)⟩
  | case2 p rest hbj hTo hpc =>
    intro out heq
    rw [resolve, if_pos hbj, hTo, hpc] at heq
    simp at heq
  | case3 p rest hbj hTo t hpc hlook =>
    intro out heq
    rw [resolve, if_pos hbj, hTo, hpc] at heq
    simp only [hlook] at heq
    simp at heq
  | case4 p rest hbj hTo t hpc tpc hlook ih =>
    intro out heq
    rw [resolve, if_pos hbj, hTo, hpc] at heq
    simp only [hlook] at heq
    cases hres : resolve snap rest with
    | none => rw [hres] at heq; simp at heq
    | some out1 =>
      rw [hres] at heq
      simp only [Option.map_some', Option.some.injEq] at heq
      subst heq
      obtain ⟨hlen, hall⟩ := ih out1 hres
      refine ⟨by simp [hlen], ?_⟩
      intro pq hpq
      rcases List.mem_cons.mp hpq with rfl | hpq2
      · intro _ _
        exact ⟨t, tpc, hpc, hlook, rfl⟩
      · exact hall pq hpq2
  | case5 p rest hbj hTo =>
    intro out heq
    rw [resolve, if_pos hbj, hTo] at heq
    simp at heq
  | case6 p rest hbj hTo1 hTo2 ih =>
    intro out heq
    rw [resolve, if_pos hbj] at heq
    have heq2 : (resolve snap rest).map (p :: ·) = some out := by
      rw [← heq]
      cases hv : p.pTo.typ with
      | TYPE_BRANCH => exact absurd hv hTo1
      | TYPE_MEM => exact absurd hv hTo2
      | TYPE_NONE => rfl
      | TYPE_REG => rfl
      | TYPE_CONST => rfl
      | TYPE_ADDR => rfl
    cases hres : resolve snap rest with
    | none => rw [hres] at heq2; simp at heq2
    | some out1 =>
      rw [hres] at heq2
      simp only [Option.map_some', Option.some.injEq] at heq2
      subst heq2
      obtain ⟨hlen, hall⟩ := ih out1 hres
      refine ⟨by simp [hlen], ?_⟩
      intro pq hpq
      rcases List.mem_cons.mp hpq with rfl | hpq2
      · intro _ hTo
        exact absurd hTo hTo1
      · exact hall pq hpq2
  | case7 p rest hnb hau hpc =>
    intro out heq
    rw [resolve, if_neg hnb, if_pos hau, hpc] at heq
    simp at heq
  | case8 p rest hnb hau t hpc hlook =>
    intro out heq
    rw [resolve, if_neg hnb, if_pos hau, hpc] at heq
    simp only [hlook] at heq
    simp at heq
  | case9 p hnb hau t hpc tpc hlook =>
    intro out heq
    rw [resolve, if_neg hnb, if_pos hau, hpc] at heq
    simp only [hlook] at heq
    simp at heq
  | case10 p hnb hau t hpc tpc hlook q rest lh ih =>
    intro out heq
    rw [resolve, if_neg hnb, if_pos hau, hpc] at heq
    simp only [hlook] at heq
    cases hres : resolve snap
        ({ q with pFrom :=
            { q.pFrom with offset := ((Split32BitImmediate (tpc - p.pPc)).getD (0, 0)).1 } } ::
          rest) with
    | none => rw [hres] at heq; simp at heq
    | some out1 =>
      rw [hres] at heq
      simp only [Option.map_some', Option.some.injEq] at heq
      subst heq
      obtain ⟨hlen, hall⟩ := ih out1 hres
      cases out1 with
      | nil => simp at hlen
      | cons o out2 =>
        refine ⟨by simpa using hlen, ?_⟩
        intro pq hpq
        rcases List.mem_cons.mp hpq with rfl | hpq2
        · intro hbr _
          exact absurd hbr hnb
        · rcases List.mem_cons.mp hpq2 with rfl | hpq3
          · exact hall ({ q with pFrom := { q.pFrom with offset := lh.1 } }, o)
              (List.mem_cons.mpr (Or.inl rfl))
          · exact hall _ (List.mem_cons_of_mem _ hpq3)
  | case11 p rest hnb hnau ih =>
    intro out heq
    rw [resolve, if_neg hnb, if_neg hnau] at heq
    cases hres : resolve snap rest with
    | none => rw [hres] at heq; simp at heq
    | some out1 =>
      rw [hres] at heq
      simp only [Option.map_some', Option.some.injEq] at heq
      subst heq
      obtain ⟨hlen, hall⟩ := ih out1 hres
      refine ⟨by simp [hlen], ?_⟩
      intro pq hpq
      rcases List.mem_cons.mp hpq with rfl | hpq2
      · intro hbr _
        exact absurd hbr hnb
      · exact hall pq hpq2

/-- C3: when the relaxation pass meets a conditional branch whose
displacement is outside the 13-bit signed range, it replaces it by the
inverted branch condition targeting the prog immediately after a newly
inserted unconditional AJAL (the output continues with a prog of the same
identifier as the old fallthrough, which the inverted branch now targets),
and the inserted jump carries the original branch target; and after the
final displacement-resolution loop, every branch or jump whose To operand
was TYPE_BRANCH holds a TYPE_CONST To operand equal to target Pc minus the
instruction's own Pc.  (The inserted jump is checked against the jump range
at its not-yet-assigned address 0, as the Go loop does; the hypothesis
`-2^20 ≤ tpc < 2^20` keeps it an AJAL for this sweep.) -/
theorem C3_branch_relaxation_resolution :
    (∀ (snap : List Prog) (p : Prog) (rest res : List Prog) (fresh rf2 : Nat)
        (rch : Bool) (t : Nat) (tpc : Int),
      isCondBranch p.pAs = true → p.pTo.typ = .TYPE_BRANCH →
      p.pPcond = some t → lookPc snap t = some tpc →
      (tpc - p.pPc < -4096 ∨ 4096 ≤ tpc - p.pPc) →
      (-(2 ^ 20) ≤ tpc ∧ tpc < 2 ^ 20) →
      onePass snap (p :: rest) fresh = some (res, rch, rf2) →
      ∃ inv out2,
        InvertBranch p.pAs = some inv ∧
        res = { p with pAs := inv, pPcond := rest.head?.map Prog.pId } ::
          { pId := fresh, pAs := .AJAL,
            pFrom := { typ := .TYPE_REG, reg := REG_ZERO },
            pTo := { typ := .TYPE_BRANCH }, pPcond := some t } :: out2 ∧
        rch = true ∧
        out2.head?.map Prog.pId = rest.head?.map Prog.pId) ∧
    (∀ (snap l out : List Prog), resolve snap l = some out →
      out.length = l.length ∧ ∀ pq ∈ l.zip out, resolvedPair snap pq) :=
  ⟨fun _ _ _ _ _ _ _ _ _ hb hTo hpc hlook hoor hjr heq =>
      branch_relax_step hb hTo hpc hlook hoor hjr heq,
   fun snap l out heq => resolve_spec snap l out heq⟩

def c3p : Prog := { pId := 1, pAs := .ABEQ, pTo := { typ := .TYPE_BRANCH }, pPcond := some 2 }

def c3k : Prog := { pId := 2, pAs := .AJALR, pPc := 8000 }

def c3snap : List Prog := [c3p, c3k]

def c3res : List Prog :=
  [{ c3p with pAs := .ABNE, pPcond := some 2 },
   { pId := 3, pAs := .AJAL, pFrom := { typ := .TYPE_REG, reg := REG_ZERO },
     pTo := { typ := .TYPE_BRANCH }, pPcond := some 2 },
   c3k]

def c3q : Prog := { pId := 1, pAs := .AJAL, pTo := { typ := .TYPE_BRANCH }, pPcond := some 2 }

def c3r : Prog := { pId := 2, pPc := 4 }

def c3l : List Prog := [c3q, c3r]

def c3out : List Prog := [{ c3q with pTo := { typ := .TYPE_CONST, offset := 4 } }, c3r]

/-- Witness: a far branch (target at pc 8000) over a final indirect jump is
relaxed to the ABNE/AJAL pair, and resolution of a short forward jump
produces the TYPE_CONST displacement 4. -/
theorem C3_branch_relaxation_resolution_witness :
    (isCondBranch c3p.pAs = true ∧ lookPc c3snap 2 = some 8000 ∧
      (8000 - c3p.pPc < -4096 ∨ 4096 ≤ 8000 - c3p.pPc) ∧
      onePass c3snap (c3p :: [c3k]) 3 = some (c3res, true, 4) ∧
      resolve c3l c3l = some c3out) ∧
    (∃ inv out2,
      InvertBranch c3p.pAs = some inv ∧
      c3res = { c3p with pAs := inv, pPcond := [c3k].head?.map Prog.pId } ::
        { pId := 3, pAs := .AJAL,
          pFrom := { typ := .TYPE_REG, reg := REG_ZERO },
          pTo := { typ := .TYPE_BRANCH }, pPcond := some 2 } :: out2 ∧
      true = true ∧
      out2.head?.map Prog.pId = [c3k].head?.map Prog.pId) ∧
    (c3out.length = c3l.length ∧ ∀ pq ∈ c3l.zip c3out, resolvedPair c3l pq) :=
  ⟨⟨by decide, by decide, by decide,
    by
      norm_num [onePass, isCondBranch, lookPc, findP, c3snap, c3p, c3k, c3res,
        InvertBranch, List.find?]
      decide,
    by
      norm_num [resolve, isCondBranch, lookPc, findP, c3l, c3q, c3r, c3out,
        List.find?]
      decide⟩,
   C3_branch_relaxation_resolution.1 c3snap c3p [c3k] c3res 3 4 true 2 8000
     (by decide) (by decide) (by decide) (by decide) (by decide) (by decide)
     (by
       norm_num [onePass, isCondBranch, lookPc, findP, c3snap, c3p, c3k, c3res,
         InvertBranch, List.find?]
       decide),
   C3_branch_relaxation_resolution.2 c3l c3l c3out
     (by
       norm_num [resolve, isCondBranch, lookPc, findP, c3l, c3q, c3r, c3out,
         List.find?]
       decide)⟩
